import Mathlib

/-!
# sys::File (Unix): reliable read and write over one file handle

A shallow embedding of `c++/sys/source/FileUnix.cpp`.

* The platform calls (`open`, `read`, `write`, `lseek`, `fstat`, `close`) are
  the environment: a record of state-passing functions `Os σ`.
* Every operation returns a run record: its outcome (normal return or the
  `sys::SystemException` thrown), the platform calls it issued in order, and
  the platform state left behind.
* `Size_T` is an unsigned word of `Conf.SIZE_BITS` bits and `SSize_T` a signed
  one; the accumulations `+=` and the subtraction `size - totalBytesRead` are
  taken modulo `2 ^ SIZE_BITS`.
* The constants of `sys/File.h` and `sys/Conf.h` are the fields of `Conf`.
* Two platforms are given: `scheduled`, which replays fixed sequences of
  replies, and `modelOs`, one file with a cursor whose reads and writes may be
  short.
-/

namespace sys

/-- One `char` of a buffer. -/
abbrev Byte := Fin 256

/-- Memory reached through a `char *`: the byte at each offset from the pointer. -/
abbrev Buffer := Nat → Byte

/-- Constants that the source takes from its headers and from `errno.h`. -/
structure Conf where
  /-- Width in bits of `Size_T` (unsigned) and `SSize_T` (signed). -/
  SIZE_BITS : Nat
  _SYS_MAX_READ_ATTEMPTS : Nat
  _SYS_DEFAULT_PERM : Nat
  SYS_INVALID_HANDLE : Int
  EINTR : Int
  EAGAIN : Int
  WRITE_ONLY : Nat
  TRUNCATE : Nat

/-- The exception class thrown by every operation, with its message. -/
structure SystemException where
  message : String
deriving DecidableEq, Repr

deriving instance DecidableEq for Except

/-- What `::read` hands back: its return value, `errno`, and the bytes the
platform has ready, of which the first `ret` are stored at the pointer. -/
structure ReadReply where
  ret : Int
  errno : Int
  payload : Nat → Byte

/-- What `::write` hands back: its return value and `errno`. -/
structure WriteReply where
  ret : Int
  errno : Int
deriving DecidableEq, Repr

/-- The platform beneath the file, over a platform state `σ`. -/
structure Os (σ : Type) where
  /-- Call `open(path, flags, mode)`: the handle returned. -/
  osOpen : σ → String → Nat → Nat → Int × σ
  /-- Call `read(fd, ptr, count)`. -/
  osRead : σ → Int → Nat → ReadReply × σ
  /-- Call `write(fd, ptr, count)`, given the memory at `ptr`. -/
  osWrite : σ → Int → Buffer → Nat → WriteReply × σ
  /-- Call `lseek(fd, offset, whence)`. -/
  osSeek : σ → Int → Int → Int → Int × σ
  /-- Call `fstat(fd, &buf)`: the return value and `buf.st_size`. -/
  osStat : σ → Int → (Int × Int) × σ
  /-- Call `close(fd)`. -/
  osClose : σ → Int → Int × σ

/-- The object state of `sys::File`. -/
structure File where
  mHandle : Int
deriving DecidableEq, Repr

/-- Conversion of an integer to `Size_T`. -/
def toSize (C : Conf) (x : Int) : Nat := (x % ((2 ^ C.SIZE_BITS : Nat) : Int)).toNat

/-- The bytes a read reply delivers: the first `ret` bytes of its payload. -/
def ReadReply.chunk (r : ReadReply) : List Byte :=
  (List.range r.ret.toNat).map r.payload

/-- Memory after the platform has stored a reply at offset `off`. -/
def storeAt (buf : Buffer) (off : Nat) (r : ReadReply) : Buffer :=
  fun i => if off ≤ i ∧ i < off + r.ret.toNat then r.payload (i - off) else buf i

/-- The first `n` bytes of a buffer. -/
def Buffer.front (buf : Buffer) (n : Nat) : List Byte :=
  (List.range n).map buf

/-- One `::read` issued by `readInto`: where in the buffer it pointed, the
count it asked for, and what came back. -/
structure ReadCall where
  offset : Nat
  count : Nat
  reply : ReadReply

/-- One `::write` issued by `writeFrom`. -/
structure WriteCall where
  offset : Nat
  count : Nat
  reply : WriteReply
deriving DecidableEq, Repr

/-- Outcome of `readInto`. -/
structure ReadRun (σ : Type) where
  result : Except SystemException Unit
  buffer : Buffer
  calls : List ReadCall
  os : σ

/-- Outcome of `writeFrom` within a bound on the iterations of its loop:
`result = none` means that the loop is still running when the bound is
reached, and `calls` are the writes issued so far. -/
structure WriteRun (σ : Type) where
  result : Option (Except SystemException Unit)
  calls : List WriteCall
  os : σ
deriving DecidableEq

/-- Outcome of `create`: the flag word and mode handed to `open` are kept. -/
structure CreateRun (σ : Type) where
  result : Except SystemException Unit
  file : File
  path : String
  flags : Nat
  mode : Nat
  os : σ
deriving DecidableEq

/-- The inner `switch (errno)`: the codes after which `readInto` keeps trying. -/
def isTransient (C : Conf) (errno : Int) : Bool :=
  errno == C.EINTR || errno == C.EAGAIN

/-- Prepend a call to the calls of a run. -/
def ReadRun.after {σ : Type} (c : ReadCall) (r : ReadRun σ) : ReadRun σ :=
  { r with calls := c :: r.calls }

/-- Prepend a call to the calls of a run. -/
def WriteRun.after {σ : Type} (c : WriteCall) (r : WriteRun σ) : WriteRun σ :=
  { r with calls := c :: r.calls }

/-- The `for (i = 1; i <= _SYS_MAX_READ_ATTEMPTS; i++)` loop of `readInto`,
with `left` iterations still to go. -/
def readLoop {σ : Type} (C : Conf) (os : Os σ) (h : Int) (size : Nat) :
    (left : Nat) → (totalBytesRead : Nat) → σ → Buffer → ReadRun σ
  | 0, _, s, buf => ⟨.error ⟨"Unknown read state"⟩, buf, [], s⟩
  | left + 1, totalBytesRead, s, buf =>
    let count := toSize C ((size : Int) - totalBytesRead)
    let (r, s1) := os.osRead s h count
    let buf1 := storeAt buf totalBytesRead r
    let call : ReadCall := ⟨totalBytesRead, count, r⟩
    if r.ret = -1 then
      if isTransient C r.errno then
        if totalBytesRead = size then ⟨.ok (), buf1, [call], s1⟩
        else (readLoop C os h size left totalBytesRead s1 buf1).after call
      else ⟨.error ⟨"While reading from file"⟩, buf1, [call], s1⟩
    else if r.ret = 0 then ⟨.error ⟨"Unexpected end of file"⟩, buf1, [call], s1⟩
    else
      let total1 := toSize C ((totalBytesRead : Int) + r.ret)
      if total1 = size then ⟨.ok (), buf1, [call], s1⟩
      else (readLoop C os h size left total1 s1 buf1).after call

/-- Model of `sys::File::readInto(char *buffer, Size_T size)`. -/
def readInto {σ : Type} (C : Conf) (os : Os σ) (s : σ) (f : File)
    (buffer : Buffer) (size : Nat) : ReadRun σ :=
  if size = 0 then ⟨.ok (), buffer, [], s⟩
  else readLoop C os f.mHandle size C._SYS_MAX_READ_ATTEMPTS 0 s buffer

/-- The `do ... while (bytesActuallyWritten < size)` loop of `writeFrom`. The
loop has no bound of its own: `fuel` bounds the iterations carried out. -/
def writeLoop {σ : Type} (C : Conf) (os : Os σ) (h : Int) (buffer : Buffer) (size : Nat) :
    (fuel : Nat) → (bytesActuallyWritten : Nat) → σ → WriteRun σ
  | 0, _, s => ⟨none, [], s⟩
  | fuel + 1, bytesActuallyWritten, s =>
    let (r, s1) := os.osWrite s h buffer size
    let call : WriteCall := ⟨0, size, r⟩
    if r.ret = -1 then ⟨some (.error ⟨"Writing to file"⟩), [call], s1⟩
    else
      let written1 := toSize C ((bytesActuallyWritten : Int) + r.ret)
      if written1 < size then
        (writeLoop C os h buffer size fuel written1 s1).after call
      else ⟨some (.ok ()), [call], s1⟩

/-- Model of `sys::File::writeFrom(const char *buffer, Size_T size)`, carried
out for at most `fuel` iterations of its loop. -/
def writeFrom {σ : Type} (C : Conf) (os : Os σ) (s : σ) (f : File)
    (buffer : Buffer) (size : Nat) (fuel : Nat) : WriteRun σ :=
  writeLoop C os f.mHandle buffer size fuel 0 s

/-- Model of `sys::File::create(str, accessFlags, creationFlags)`. -/
def create {σ : Type} (C : Conf) (os : Os σ) (s : σ) (_f : File)
    (str : String) (accessFlags creationFlags : Nat) : CreateRun σ :=
  let creationFlags1 :=
    if accessFlags &&& C.WRITE_ONLY ≠ 0 then creationFlags ||| C.TRUNCATE else creationFlags
  let flags := accessFlags ||| creationFlags1
  let (hnd, s1) := os.osOpen s str flags C._SYS_DEFAULT_PERM
  if hnd = C.SYS_INVALID_HANDLE then
    ⟨.error ⟨"Error opening file: " ++ str⟩, ⟨hnd⟩, str, flags, C._SYS_DEFAULT_PERM, s1⟩
  else ⟨.ok (), ⟨hnd⟩, str, flags, C._SYS_DEFAULT_PERM, s1⟩

/-- Model of `sys::File::seekTo(offset, whence)`. -/
def seekTo {σ : Type} (os : Os σ) (s : σ) (f : File) (offset whence : Int) :
    Except SystemException Int × σ :=
  let (off, s1) := os.osSeek s f.mHandle offset whence
  if off = -1 then (.error ⟨"Seeking in file"⟩, s1) else (.ok off, s1)

/-- Model of `sys::File::length()`. -/
def length {σ : Type} (os : Os σ) (s : σ) (f : File) : Except SystemException Int × σ :=
  let ((rval, stSize), s1) := os.osStat s f.mHandle
  if rval = -1 then (.error ⟨"Error querying file attributes"⟩, s1) else (.ok stSize, s1)

/-- Model of `sys::File::close()`. -/
def close {σ : Type} (C : Conf) (os : Os σ) (s : σ) (f : File) : File × σ :=
  let (_, s1) := os.osClose s f.mHandle
  (⟨C.SYS_INVALID_HANDLE⟩, s1)

/-! ## Vocabulary of the properties -/

/-- Number of bytes delivered by a list of reads: the sum of the positive results. -/
def delivered : List ReadCall → Nat
  | [] => 0
  | c :: cs => c.reply.ret.toNat + delivered cs

/-- The bytes delivered by a list of reads, in call order. -/
def deliveredBytes : List ReadCall → List Byte
  | [] => []
  | c :: cs => c.reply.chunk ++ deliveredBytes cs

/-- A read that failed with a code after which `readInto` keeps trying. -/
def ReadCall.transient (C : Conf) (c : ReadCall) : Prop :=
  c.reply.ret = -1 ∧ isTransient C c.reply.errno = true

/-- A read that failed with any other code. -/
def ReadCall.fatal (C : Conf) (c : ReadCall) : Prop :=
  c.reply.ret = -1 ∧ isTransient C c.reply.errno = false

/-- A read that made progress: the `default` label of `switch (bytesRead)`. -/
def ReadCall.progress (c : ReadCall) : Prop :=
  c.reply.ret ≠ -1 ∧ c.reply.ret ≠ 0

/-- A read whose result is the error value or a byte count no larger than the
count asked for. -/
def ReadCall.bounded (c : ReadCall) : Prop :=
  c.reply.ret = -1 ∨ (0 ≤ c.reply.ret ∧ c.reply.ret ≤ c.count)

instance (C : Conf) (c : ReadCall) : Decidable (c.transient C) := by
  unfold ReadCall.transient; infer_instance

instance (C : Conf) (c : ReadCall) : Decidable (c.fatal C) := by
  unfold ReadCall.fatal; infer_instance

instance (c : ReadCall) : Decidable c.progress := by
  unfold ReadCall.progress; infer_instance

instance (c : ReadCall) : Decidable c.bounded := by
  unfold ReadCall.bounded; infer_instance

/-- The bytes of the buffer that a list of writes handed to the platform, in
call order: each write hands over the first `ret` bytes at its pointer. -/
def acceptedBytes (buffer : Buffer) : List WriteCall → List Byte
  | [] => []
  | c :: cs =>
    (List.range c.reply.ret.toNat).map (fun i => buffer (c.offset + i)) ++ acceptedBytes buffer cs

/-! ## Sample platforms -/

/-- A 64-bit Linux configuration, with 100 read attempts. -/
def linux64 : Conf :=
  { SIZE_BITS := 64, _SYS_MAX_READ_ATTEMPTS := 100, _SYS_DEFAULT_PERM := 0o644,
    SYS_INVALID_HANDLE := -1, EINTR := 4, EAGAIN := 11, WRITE_ONLY := 1, TRUNCATE := 0o1000 }

/-- The same configuration with 3 read attempts. -/
def linux64x3 : Conf := { linux64 with _SYS_MAX_READ_ATTEMPTS := 3 }

/-- A platform that replays fixed schedules: the `i`-th `read` returns
`reads i` and the `i`-th `write` returns `writes i`, whatever is asked. The
state is the pair of call counters. -/
def scheduled (reads : Nat → ReadReply) (writes : Nat → WriteReply) : Os (Nat × Nat) :=
  { osOpen := fun s _ _ _ => (3, s)
    osRead := fun s _ _ => (reads s.1, (s.1 + 1, s.2))
    osWrite := fun s _ _ _ => (writes s.2, (s.1, s.2 + 1))
    osSeek := fun s _ _ _ => (0, s)
    osStat := fun s _ => ((0, 0), s)
    osClose := fun s _ => (0, s) }

/-- The bytes 7, 8, 9, ... that the sample reads deliver. -/
def sampleData : Nat → Byte := fun i => Fin.ofNat (i + 7)

/-- A buffer of zero bytes. -/
def blank : Buffer := fun _ => 0

/-- The buffer 10, 20, 30, ... handed to the sample writes. -/
def sampleBuffer : Buffer := fun i => Fin.ofNat (10 * (i + 1))

/-- A read that returns `n`. -/
def gives (n : Int) : ReadReply := ⟨n, 0, sampleData⟩

/-- A read that returns `-1` and sets `errno`. -/
def fails (errno : Int) : ReadReply := ⟨-1, errno, sampleData⟩

/-- Reads: one byte, then `EINTR`, then two bytes each. -/
def readsChunked : Nat → ReadReply := fun i =>
  if i = 0 then gives 1 else if i = 1 then fails 4 else gives 2

/-- Reads: one byte, then end of file. -/
def readsEof : Nat → ReadReply := fun i => if i = 0 then gives 1 else gives 0

/-- Reads: one byte, then `EAGAIN`, then `EIO`. -/
def readsFatal : Nat → ReadReply := fun i =>
  if i = 0 then gives 1 else if i = 1 then fails 11 else fails 5

/-- Reads: `EINTR` and `EAGAIN` in turn, for ever. -/
def readsTransient : Nat → ReadReply := fun i => if i % 2 = 0 then fails 4 else fails 11

/-- Reads: one byte each. -/
def readsOneByOne : Nat → ReadReply := fun _ => gives 1

/-- Reads: `EINTR` twice, then five bytes. -/
def readsRetry : Nat → ReadReply := fun i => if i < 2 then fails 4 else gives 5

/-- Writes: one byte accepted each time. -/
def writesOneByOne : Nat → WriteReply := fun _ => ⟨1, 0⟩

/-- Writes: one byte accepted, then `-1` with `EINTR`. -/
def writesInterrupted : Nat → WriteReply := fun i => if i = 0 then ⟨1, 0⟩ else ⟨-1, 4⟩

/-- Writes: two bytes accepted each time. -/
def writesTwoByTwo : Nat → WriteReply := fun _ => ⟨2, 0⟩

/-- Modelled from the spec: `isOpen` of `sys/File.h`, which is not under src/;
the spec derives it as "handle != invalid-sentinel". -/
def File.isOpen (C : Conf) (f : File) : Bool :=
  f.mHandle != C.SYS_INVALID_HANDLE

/-! ## A model platform with one file -/

/-- State of the model platform: the bytes of its file, the cursor, and for
each coming `read` and `write` the number of bytes the platform would like to
move. -/
structure ModelFs where
  content : List Byte
  cursor : Nat
  readPick : Nat → Nat
  writePick : Nat → Nat
  reads : Nat
  writes : Nat

/-- Number of bytes one call moves: what the platform picks, but at least 1
and at most `limit`. -/
def moved (pick limit : Nat) : Nat :=
  min (max 1 pick) limit

/-- The file after `bytes` are written at `cursor`; a gap past the end is
filled with zero bytes. -/
def putAt (content : List Byte) (cursor : Nat) (bytes : List Byte) : List Byte :=
  content.take cursor ++ List.replicate (cursor - content.length) 0 ++ bytes
    ++ content.drop (cursor + bytes.length)

/-- The model platform. `open` rewinds the cursor and empties the file when
the flag word contains `TRUNCATE`; `read` returns between 1 and the bytes
available (at most `count`), or `0` at the end of the file; `write` accepts
between 1 and `count` bytes; `lseek` takes `whence` 0, 1, 2 for start,
current, end. -/
def modelOs (C : Conf) : Os ModelFs :=
  { osOpen := fun st _ flags _ =>
      (C.SYS_INVALID_HANDLE + 1,
        { st with content := if flags &&& C.TRUNCATE ≠ 0 then [] else st.content, cursor := 0 })
    osRead := fun st _ count =>
      (⟨(moved (st.readPick st.reads) (min (st.content.length - st.cursor) count) : Nat), 0,
          fun i => st.content.getD (st.cursor + i) 0⟩,
        { st with
          cursor := st.cursor + moved (st.readPick st.reads)
            (min (st.content.length - st.cursor) count)
          reads := st.reads + 1 })
    osWrite := fun st _ buf count =>
      (⟨(moved (st.writePick st.writes) count : Nat), 0⟩,
        { st with
          content := putAt st.content st.cursor
            ((List.range (moved (st.writePick st.writes) count)).map buf)
          cursor := st.cursor + moved (st.writePick st.writes) count
          writes := st.writes + 1 })
    osSeek := fun st _ offset whence =>
      if whence = 0 ∧ 0 ≤ offset then (offset, { st with cursor := offset.toNat })
      else if whence = 1 ∧ 0 ≤ (st.cursor : Int) + offset then
        ((st.cursor : Int) + offset, { st with cursor := ((st.cursor : Int) + offset).toNat })
      else if whence = 2 ∧ 0 ≤ (st.content.length : Int) + offset then
        ((st.content.length : Int) + offset,
          { st with cursor := ((st.content.length : Int) + offset).toNat })
      else (-1, st)
    osStat := fun st _ => ((0, (st.content.length : Int)), st)
    osClose := fun st _ => (0, st) }

/-- The buffer holding the bytes `b`, zero beyond them. -/
def bufferOf (b : List Byte) : Buffer :=
  fun i => b.getD i 0

/-- What the round trip of the bytes `b` through the model file observes. -/
structure RoundTrip where
  opened : Except SystemException Unit
  written : Option (Except SystemException Unit)
  reopened : Except SystemException Unit
  readBack : Except SystemException Unit
  data : List Byte
  readMore : Except SystemException Unit
deriving DecidableEq

/-- The scenario: create the file write-only, `writeFrom` the bytes `b`,
close, reopen with access mode 0 (read-only) and no creation flags, `readInto`
`b.length` bytes, then `readInto` one more byte. -/
def roundTrip (C : Conf) (st : ModelFs) (b : List Byte) (creationFlags fuel : Nat) : RoundTrip :=
  let c1 := create C (modelOs C) st ⟨C.SYS_INVALID_HANDLE⟩ "data.bin" C.WRITE_ONLY creationFlags
  let w := writeFrom C (modelOs C) c1.os c1.file (bufferOf b) b.length fuel
  let cl := close C (modelOs C) w.os c1.file
  let c2 := create C (modelOs C) cl.2 cl.1 "data.bin" 0 0
  let r := readInto C (modelOs C) c2.os c2.file blank b.length
  let r1 := readInto C (modelOs C) r.os c2.file r.buffer 1
  ⟨c1.result, w.result, c2.result, r.result, r.buffer.front b.length, r1.result⟩

/-- A model platform whose file holds stale bytes, with the given picks. -/
def sampleFs (readPick writePick : Nat → Nat) : ModelFs :=
  ⟨[1, 2, 3], 2, readPick, writePick, 0, 0⟩

/-! ## Arithmetic of `Size_T` -/

theorem toSize_lt (C : Conf) (x : Int) : toSize C x < 2 ^ C.SIZE_BITS := by
  unfold toSize
  have hpos : (0 : Int) < ((2 ^ C.SIZE_BITS : Nat) : Int) := by positivity
  have h1 := Int.emod_lt_of_pos x hpos
  have h0 := Int.emod_nonneg x (ne_of_gt hpos)
  omega

theorem toSize_of_lt (C : Conf) (x : Int) (h0 : 0 ≤ x)
    (h1 : x < ((2 ^ C.SIZE_BITS : Nat) : Int)) : toSize C x = x.toNat := by
  unfold toSize
  rw [Int.emod_eq_of_lt h0 h1]

/-! ## The read loop -/

theorem cons_eq_append_cons {α : Type} {a c : α} {l pre post : List α}
    (h : a :: l = pre ++ c :: post) :
    (pre = [] ∧ c = a ∧ post = l) ∨ ∃ pre1, pre = a :: pre1 ∧ l = pre1 ++ c :: post := by
  cases pre with
  | nil =>
    simp only [List.nil_append, List.cons.injEq] at h
    exact Or.inl ⟨rfl, h.1.symm, h.2.symm⟩
  | cons b pre1 =>
    simp only [List.cons_append, List.cons.injEq] at h
    exact Or.inr ⟨pre1, by rw [h.1], h.2⟩

/-- A read that returns `0`, or fails with a fatal code, is the last read of
the loop and decides the exception thrown. -/
theorem readLoop_stops {σ : Type} (C : Conf) (os : Os σ) (h : Int) (size : Nat) :
    ∀ (left total : Nat) (s : σ) (buf : Buffer) (pre : List ReadCall) (c : ReadCall)
      (post : List ReadCall),
      (readLoop C os h size left total s buf).calls = pre ++ c :: post →
        (c.reply.ret = 0 → post = [] ∧
          (readLoop C os h size left total s buf).result = .error ⟨"Unexpected end of file"⟩) ∧
        (c.fatal C → post = [] ∧
          (readLoop C os h size left total s buf).result = .error ⟨"While reading from file"⟩) := by
  intro left
  induction left with
  | zero =>
    intro total s buf
    simp [readLoop]
  | succ n ih =>
    intro total s buf pre c post
    simp only [readLoop]
    split_ifs with h1 h2 h3 h4 h5
    · intro hc
      rcases cons_eq_append_cons hc with ⟨_, rfl, rfl⟩ | ⟨pre1, _, hl⟩
      · simp [ReadCall.fatal, h1, h2]
      · simp at hl
    · intro hc
      simp only [ReadRun.after] at hc ⊢
      rcases cons_eq_append_cons hc with ⟨_, rfl, rfl⟩ | ⟨pre1, _, hl⟩
      · simp [ReadCall.fatal, h1, h2]
      · exact ih total _ _ pre1 c post hl
    · intro hc
      rcases cons_eq_append_cons hc with ⟨_, rfl, rfl⟩ | ⟨pre1, _, hl⟩
      · simp [ReadCall.fatal, h1]
      · simp at hl
    · intro hc
      rcases cons_eq_append_cons hc with ⟨_, rfl, rfl⟩ | ⟨pre1, _, hl⟩
      · simp [ReadCall.fatal, h1]
      · simp at hl
    · intro hc
      rcases cons_eq_append_cons hc with ⟨_, rfl, rfl⟩ | ⟨pre1, _, hl⟩
      · simp [ReadCall.fatal, h1, h4]
      · simp at hl
    · intro hc
      simp only [ReadRun.after] at hc ⊢
      rcases cons_eq_append_cons hc with ⟨_, rfl, rfl⟩ | ⟨pre1, _, hl⟩
      · simp [ReadCall.fatal, h1, h4]
      · exact ih _ _ _ pre1 c post hl

/-- When the loop runs out of iterations it has used every one of them, each
on a transient error or on progress. -/
theorem readLoop_exhausted {σ : Type} (C : Conf) (os : Os σ) (h : Int) (size : Nat) :
    ∀ (left total : Nat) (s : σ) (buf : Buffer),
      (readLoop C os h size left total s buf).result = .error ⟨"Unknown read state"⟩ →
        (readLoop C os h size left total s buf).calls.length = left ∧
        ∀ c ∈ (readLoop C os h size left total s buf).calls, c.transient C ∨ c.progress := by
  intro left
  induction left with
  | zero =>
    intro total s buf
    simp [readLoop]
  | succ n ih =>
    intro total s buf
    simp only [readLoop]
    split_ifs with h1 h2 h3 h4 h5
    · simp
    · intro hres
      simp only [ReadRun.after] at hres ⊢
      obtain ⟨hlen, hall⟩ := ih _ _ _ hres
      refine ⟨by simp [hlen], ?_⟩
      intro c hc
      rcases List.mem_cons.mp hc with rfl | hc
      · exact Or.inl ⟨h1, h2⟩
      · exact hall c hc
    · simp
    · simp
    · simp
    · intro hres
      simp only [ReadRun.after] at hres ⊢
      obtain ⟨hlen, hall⟩ := ih _ _ _ hres
      refine ⟨by simp [hlen], ?_⟩
      intro c hc
      rcases List.mem_cons.mp hc with rfl | hc
      · exact Or.inr ⟨h1, h4⟩
      · exact hall c hc

theorem scheduled_osRead (reads : Nat → ReadReply) (writes : Nat → WriteReply)
    (s : Nat × Nat) (h : Int) (count : Nat) :
    (scheduled reads writes).osRead s h count = (reads s.1, (s.1 + 1, s.2)) := rfl

theorem scheduled_osWrite (reads : Nat → ReadReply) (writes : Nat → WriteReply)
    (s : Nat × Nat) (h : Int) (buf : Buffer) (count : Nat) :
    (scheduled reads writes).osWrite s h buf count = (writes s.2, (s.1, s.2 + 1)) := rfl

/-- On a platform whose next `left` reads all fail with a transient code, the
loop uses every iteration and then gives up. -/
theorem readLoop_scheduled_transient (C : Conf) (reads : Nat → ReadReply)
    (writes : Nat → WriteReply) (h : Int) (size b : Nat) :
    ∀ (left total a : Nat) (buf : Buffer), total ≠ size →
      (∀ i, i < left → (reads (a + i)).ret = -1 ∧ isTransient C (reads (a + i)).errno = true) →
        (readLoop C (scheduled reads writes) h size left total (a, b) buf).result
            = .error ⟨"Unknown read state"⟩ ∧
        (readLoop C (scheduled reads writes) h size left total (a, b) buf).calls.length = left ∧
        (readLoop C (scheduled reads writes) h size left total (a, b) buf).os = (a + left, b) := by
  intro left
  induction left with
  | zero =>
    intro total a buf _ _
    simp [readLoop]
  | succ n ih =>
    intro total a buf hne htr
    have h0 := htr 0 (Nat.succ_pos n)
    simp only [Nat.add_zero] at h0
    have hrest : ∀ i, i < n →
        (reads (a + 1 + i)).ret = -1 ∧ isTransient C (reads (a + 1 + i)).errno = true := by
      intro i hi
      have := htr (i + 1) (Nat.succ_lt_succ hi)
      rwa [show a + (i + 1) = a + 1 + i by omega] at this
    obtain ⟨r1, r2, r3⟩ := ih total (a + 1) (storeAt buf total (reads a)) hne hrest
    simp only [readLoop, scheduled_osRead, h0.1, h0.2, hne, if_true, if_false, ReadRun.after]
    refine ⟨r1, by simp [r2], ?_⟩
    rw [r3]
    simp only [Prod.mk.injEq, and_true]
    omega

/-- A reply that fills the whole request leaves its chunk at the front of the buffer. -/
theorem storeAt_zero_front (buf : Buffer) (r : ReadReply) (size : Nat)
    (hret : r.ret = (size : Int)) : Buffer.front (storeAt buf 0 r) size = r.chunk := by
  unfold Buffer.front ReadReply.chunk
  have hn : r.ret.toNat = size := by rw [hret]; exact Int.toNat_natCast size
  rw [hn]
  apply List.map_congr_left
  intro i hi
  have hi1 : i < size := List.mem_range.mp hi
  simp [storeAt, hn, hi1]

/-- On a platform whose next `k` reads fail with a transient code and whose
read after those returns `size` bytes, a loop with more than `k` iterations
to go succeeds on read `k + 1`. -/
theorem readLoop_scheduled_retry (C : Conf) (reads : Nat → ReadReply)
    (writes : Nat → WriteReply) (h : Int) (size b : Nat) (hpos : 0 < size)
    (hsize : size < 2 ^ C.SIZE_BITS) :
    ∀ (k left a : Nat) (buf : Buffer), k < left →
      (∀ i, i < k → (reads (a + i)).ret = -1 ∧ isTransient C (reads (a + i)).errno = true) →
      (reads (a + k)).ret = (size : Int) →
        (readLoop C (scheduled reads writes) h size left 0 (a, b) buf).result = .ok () ∧
        (readLoop C (scheduled reads writes) h size left 0 (a, b) buf).calls.length = k + 1 ∧
        (readLoop C (scheduled reads writes) h size left 0 (a, b) buf).os = (a + k + 1, b) ∧
        (readLoop C (scheduled reads writes) h size left 0 (a, b) buf).buffer.front size
            = (reads (a + k)).chunk := by
  intro k
  induction k with
  | zero =>
    intro left a buf hlt _ hfull
    obtain ⟨n, rfl⟩ : ∃ n, left = n + 1 := ⟨left - 1, by omega⟩
    simp only [Nat.add_zero] at hfull
    have hne1 : (reads a).ret ≠ -1 := by rw [hfull]; omega
    have hne0 : (reads a).ret ≠ 0 := by rw [hfull]; omega
    have htot : toSize C (((0 : Nat) : Int) + (reads a).ret) = size := by
      have hlt2 : (((0 : Nat) : Int) + (size : Int)) < ((2 ^ C.SIZE_BITS : Nat) : Int) := by
        have : ((size : Nat) : Int) < ((2 ^ C.SIZE_BITS : Nat) : Int) := Int.ofNat_lt.mpr hsize
        omega
      rw [hfull, toSize_of_lt C _ (by omega) hlt2]
      omega
    simp only [readLoop, scheduled_osRead, hne1, hne0, htot, if_true, if_false, Nat.add_zero]
    refine ⟨?_, ?_, ?_, storeAt_zero_front buf (reads a) size hfull⟩ <;> trivial
  | succ k ih =>
    intro left a buf hlt htr hfull
    obtain ⟨n, rfl⟩ : ∃ n, left = n + 1 := ⟨left - 1, by omega⟩
    have h0 := htr 0 (Nat.succ_pos k)
    simp only [Nat.add_zero] at h0
    have hrest : ∀ i, i < k →
        (reads (a + 1 + i)).ret = -1 ∧ isTransient C (reads (a + 1 + i)).errno = true := by
      intro i hi
      have := htr (i + 1) (Nat.succ_lt_succ hi)
      rwa [show a + (i + 1) = a + 1 + i by omega] at this
    have hfull1 : (reads (a + 1 + k)).ret = (size : Int) := by
      rwa [show a + (k + 1) = a + 1 + k by omega] at hfull
    obtain ⟨r1, r2, r3, r4⟩ :=
      ih n (a + 1) (storeAt buf 0 (reads a)) (by omega) hrest hfull1
    have hne : (0 : Nat) ≠ size := by omega
    simp only [readLoop, scheduled_osRead, h0.1, h0.2, hne, if_true, if_false, ReadRun.after]
    refine ⟨r1, by simp [r2], ?_, ?_⟩
    · rw [r3]
      simp only [Prod.mk.injEq, and_true]
      omega
    · rw [r4, show a + (k + 1) = a + 1 + k by omega]

/-- One iteration of the read loop, unfolded. -/
theorem readLoop_succ {σ : Type} (C : Conf) (os : Os σ) (h : Int) (size left total : Nat)
    (s : σ) (buf : Buffer) :
    readLoop C os h size (left + 1) total s buf =
      match os.osRead s h (toSize C ((size : Int) - total)) with
      | (r, s1) =>
        if r.ret = -1 then
          if isTransient C r.errno then
            if total = size then
              ⟨.ok (), storeAt buf total r, [⟨total, toSize C ((size : Int) - total), r⟩], s1⟩
            else (readLoop C os h size left total s1 (storeAt buf total r)).after
              ⟨total, toSize C ((size : Int) - total), r⟩
          else ⟨.error ⟨"While reading from file"⟩, storeAt buf total r,
            [⟨total, toSize C ((size : Int) - total), r⟩], s1⟩
        else if r.ret = 0 then
          ⟨.error ⟨"Unexpected end of file"⟩, storeAt buf total r,
            [⟨total, toSize C ((size : Int) - total), r⟩], s1⟩
        else if toSize C ((total : Int) + r.ret) = size then
          ⟨.ok (), storeAt buf total r, [⟨total, toSize C ((size : Int) - total), r⟩], s1⟩
        else (readLoop C os h size left (toSize C ((total : Int) + r.ret)) s1
            (storeAt buf total r)).after ⟨total, toSize C ((size : Int) - total), r⟩ := rfl

/-- A run of the loop can only succeed for a `size` that fits in `Size_T`. -/
theorem readLoop_ok_fits {σ : Type} (C : Conf) (os : Os σ) (h : Int) (size : Nat) :
    ∀ (left total : Nat) (s : σ) (buf : Buffer), total ≠ size →
      (readLoop C os h size left total s buf).result = .ok () → size < 2 ^ C.SIZE_BITS := by
  intro left
  induction left with
  | zero =>
    intro total s buf _
    simp [readLoop]
  | succ n ih =>
    intro total s buf
    rw [readLoop_succ]
    generalize os.osRead s h (toSize C ((size : Int) - total)) = rs
    obtain ⟨r, s1⟩ := rs
    simp only []
    split_ifs with h1 h2 h3 h4 h5
    · intro hne
      exact absurd h3 hne
    · intro hne hres
      exact ih _ _ _ hne hres
    · simp
    · simp
    · intro _ _
      rw [← h5]
      exact toSize_lt C _
    · intro _ hres
      exact ih _ _ _ h5 hres

theorem storeAt_nothing (buf : Buffer) (off : Nat) (r : ReadReply) (hret : r.ret.toNat = 0) :
    storeAt buf off r = buf := by
  funext i
  simp [storeAt, hret]

theorem storeAt_below (buf : Buffer) (off : Nat) (r : ReadReply) (i : Nat) (hi : i < off) :
    storeAt buf off r i = buf i := by
  have : ¬ (off ≤ i ∧ i < off + r.ret.toNat) := by omega
  simp [storeAt, this]

theorem storeAt_inside (buf : Buffer) (off : Nat) (r : ReadReply) (i : Nat)
    (hi : i < r.ret.toNat) : storeAt buf off r (off + i) = r.payload i := by
  have : off ≤ off + i ∧ off + i < off + r.ret.toNat := by omega
  simp [storeAt, this]

/-- The loop invariant of `readInto` on a successful run whose reads are all
bounded by their request: bytes arrive at consecutive offsets from
`total` and fill the buffer up to `size`. -/
theorem readLoop_delivers {σ : Type} (C : Conf) (os : Os σ) (h : Int) (size : Nat)
    (hsize : size < 2 ^ C.SIZE_BITS) :
    ∀ (left total : Nat) (s : σ) (buf : Buffer), total < size →
      (∀ c ∈ (readLoop C os h size left total s buf).calls, c.bounded) →
      (readLoop C os h size left total s buf).result = .ok () →
        total + delivered (readLoop C os h size left total s buf).calls = size ∧
        (∀ pre c post, (readLoop C os h size left total s buf).calls = pre ++ c :: post →
          c.offset = total + delivered pre) ∧
        (∀ i, i < total → (readLoop C os h size left total s buf).buffer i = buf i) ∧
        (List.range (size - total)).map
            (fun i => (readLoop C os h size left total s buf).buffer (total + i))
          = deliveredBytes (readLoop C os h size left total s buf).calls := by
  intro left
  induction left with
  | zero =>
    intro total s buf _
    simp [readLoop]
  | succ n ih =>
    intro total s buf hlt
    have hcount : toSize C ((size : Int) - (total : Int)) = size - total := by
      have hs : ((size : Nat) : Int) < ((2 ^ C.SIZE_BITS : Nat) : Int) := Int.ofNat_lt.mpr hsize
      rw [toSize_of_lt C _ (by omega) (by omega)]
      omega
    rw [readLoop_succ, hcount]
    generalize os.osRead s h (size - total) = rs
    obtain ⟨r, s1⟩ := rs
    simp only []
    split_ifs with h1 h2 h3 h4 h5
    · omega
    · -- a transient error: nothing is stored and the same request is repeated
      intro hb hres
      simp only [ReadRun.after] at hb hres ⊢
      have hz : r.ret.toNat = 0 := by rw [h1]; rfl
      rw [storeAt_nothing buf total _ hz] at hb hres ⊢
      obtain ⟨i1, i2, i3, i4⟩ := ih total _ buf hlt (fun c hc => hb c (List.mem_cons_of_mem _ hc)) hres
      refine ⟨?_, ?_, i3, ?_⟩
      · simp only [delivered, hz]
        omega
      · intro pre c post hc
        rcases cons_eq_append_cons hc with ⟨rfl, rfl, _⟩ | ⟨pre1, rfl, hl⟩
        · simp [delivered]
        · rw [i2 pre1 c post hl]
          simp only [delivered, hz]
          omega
      · rw [i4]
        simp [deliveredBytes, ReadReply.chunk, hz]
    · simp
    · simp
    · -- the read that completes the request
      intro hb _
      have hbd := hb _ (List.mem_singleton.mpr rfl)
      simp only [ReadCall.bounded] at hbd
      rcases hbd with hbd | ⟨hb0, hb1⟩
      · exact absurd hbd h1
      have hs : ((size : Nat) : Int) < ((2 ^ C.SIZE_BITS : Nat) : Int) := Int.ofNat_lt.mpr hsize
      have hk : toSize C ((total : Int) + r.ret)
          = total + r.ret.toNat := by
        rw [toSize_of_lt C _ (by omega) (by omega)]
        omega
      rw [hk] at h5
      refine ⟨?_, ?_, ?_, ?_⟩
      · simp only [delivered]
        omega
      · intro pre c post hc
        rcases cons_eq_append_cons hc with ⟨rfl, rfl, _⟩ | ⟨pre1, rfl, hl⟩
        · simp [delivered]
        · simp at hl
      · intro i hi
        exact storeAt_below buf total _ i hi
      · simp only [deliveredBytes, List.append_nil, ReadReply.chunk]
        rw [show size - total = r.ret.toNat by omega]
        apply List.map_congr_left
        intro i hi
        exact storeAt_inside buf total _ i (List.mem_range.mp hi)
    · -- a partial read: the next request starts where this one ended
      intro hb hres
      simp only [ReadRun.after] at hb hres ⊢
      have hbd := hb _ (List.mem_cons_self _ _)
      simp only [ReadCall.bounded] at hbd
      rcases hbd with hbd | ⟨hb0, hb1⟩
      · exact absurd hbd h1
      have hs : ((size : Nat) : Int) < ((2 ^ C.SIZE_BITS : Nat) : Int) := Int.ofNat_lt.mpr hsize
      have hk : toSize C ((total : Int) + r.ret)
          = total + r.ret.toNat := by
        rw [toSize_of_lt C _ (by omega) (by omega)]
        omega
      rw [hk] at h5 hb hres ⊢
      have hlt1 : total + r.ret.toNat < size := by omega
      obtain ⟨i1, i2, i3, i4⟩ :=
        ih _ _ _ hlt1 (fun c hc => hb c (List.mem_cons_of_mem _ hc)) hres
      refine ⟨?_, ?_, ?_, ?_⟩
      · simp only [delivered]
        omega
      · intro pre c post hc
        rcases cons_eq_append_cons hc with ⟨rfl, rfl, _⟩ | ⟨pre1, rfl, hl⟩
        · simp [delivered]
        · rw [i2 pre1 c post hl]
          simp only [delivered]
          omega
      · intro i hi
        rw [i3 i (by omega)]
        exact storeAt_below buf total _ i hi
      · simp only [deliveredBytes, ReadReply.chunk]
        rw [show size - total = r.ret.toNat
            + (size - (total + r.ret.toNat)) by omega,
          List.range_add, List.map_append, List.map_map]
        congr 1
        · apply List.map_congr_left
          intro i hi
          have hi1 := List.mem_range.mp hi
          rw [i3 _ (by omega)]
          exact storeAt_inside buf total _ i hi1
        · rw [← i4]
          apply List.map_congr_left
          intro i _
          simp only [Function.comp, Nat.add_assoc]

theorem isTransient_iff (C : Conf) (errno : Int) :
    isTransient C errno = true ↔ errno = C.EINTR ∨ errno = C.EAGAIN := by
  simp [isTransient]

/-! ## Reliable read: the claims -/

/-- C1: for `size > 0`, when every low-level read result is `-1` or a byte
count no larger than the count requested and `readInto` returns success, the
positive results sum to exactly `size`, every read pointed at the buffer offset
equal to the bytes delivered before it, and the first `size` bytes of the
buffer are the delivered chunks in call order. -/
theorem readInto_success_delivers_size {σ : Type} (C : Conf) (os : Os σ) (s : σ) (f : File)
    (buffer : Buffer) (size : Nat) (hsize : 0 < size)
    (hbounded : ∀ c ∈ (readInto C os s f buffer size).calls,
      c.reply.ret = -1 ∨ (0 ≤ c.reply.ret ∧ c.reply.ret ≤ c.count))
    (hok : (readInto C os s f buffer size).result = .ok ()) :
    delivered (readInto C os s f buffer size).calls = size ∧
    (∀ pre c post, (readInto C os s f buffer size).calls = pre ++ c :: post →
      c.offset = delivered pre) ∧
    (readInto C os s f buffer size).buffer.front size
      = deliveredBytes (readInto C os s f buffer size).calls := by
  have hne : size ≠ 0 := by omega
  simp only [readInto, hne, if_false] at hbounded hok ⊢
  have hfit : size < 2 ^ C.SIZE_BITS :=
    readLoop_ok_fits C os f.mHandle size _ 0 s buffer (by omega) hok
  obtain ⟨i1, i2, _, i4⟩ :=
    readLoop_delivers C os f.mHandle size hfit _ 0 s buffer hsize hbounded hok
  refine ⟨by omega, ?_, ?_⟩
  · intro pre c post hc
    rw [i2 pre c post hc]
    omega
  · rw [← i4]
    unfold Buffer.front
    simp

theorem readInto_success_delivers_size_witness :
    (0 < 3 ∧ (readInto linux64 (scheduled readsChunked writesOneByOne) (0, 0) ⟨3⟩ blank 3).result
        = .ok ()) ∧
    (delivered (readInto linux64 (scheduled readsChunked writesOneByOne) (0, 0) ⟨3⟩ blank 3).calls
        = 3 ∧
      (∀ pre c post,
        (readInto linux64 (scheduled readsChunked writesOneByOne) (0, 0) ⟨3⟩ blank 3).calls
            = pre ++ c :: post → c.offset = delivered pre) ∧
      (readInto linux64 (scheduled readsChunked writesOneByOne) (0, 0) ⟨3⟩ blank 3).buffer.front 3
        = deliveredBytes
            (readInto linux64 (scheduled readsChunked writesOneByOne) (0, 0) ⟨3⟩ blank 3).calls) :=
  ⟨⟨by decide, by decide⟩,
    readInto_success_delivers_size linux64 (scheduled readsChunked writesOneByOne) (0, 0) ⟨3⟩
      blank 3 (by decide) (by decide) (by decide)⟩

/-- C3: whatever was read before, a low-level read that returns `0` is the
last read `readInto` issues, and `readInto` throws "Unexpected end of
file"; in particular it does not return success. -/
theorem readInto_eof_fails {σ : Type} (C : Conf) (os : Os σ) (s : σ) (f : File)
    (buffer : Buffer) (size : Nat) (pre : List ReadCall) (c : ReadCall) (post : List ReadCall)
    (hcalls : (readInto C os s f buffer size).calls = pre ++ c :: post)
    (hzero : c.reply.ret = 0) :
    post = [] ∧
    (readInto C os s f buffer size).result = .error ⟨"Unexpected end of file"⟩ ∧
    (readInto C os s f buffer size).result ≠ .ok () := by
  by_cases h0 : size = 0
  · simp [readInto, h0] at hcalls
  · simp only [readInto, h0, if_false] at hcalls ⊢
    obtain ⟨hp, hr⟩ := (readLoop_stops C os f.mHandle size _ 0 s buffer pre c post hcalls).1 hzero
    refine ⟨hp, hr, ?_⟩
    rw [hr]
    simp

theorem readInto_eof_fails_witness :
    ((readInto linux64 (scheduled readsEof writesOneByOne) (0, 0) ⟨3⟩ blank 3).calls
        = [⟨0, 3, gives 1⟩] ++ ⟨1, 2, gives 0⟩ :: [] ∧ (gives 0).ret = 0) ∧
    (([] : List ReadCall) = [] ∧
      (readInto linux64 (scheduled readsEof writesOneByOne) (0, 0) ⟨3⟩ blank 3).result
        = .error ⟨"Unexpected end of file"⟩ ∧
      (readInto linux64 (scheduled readsEof writesOneByOne) (0, 0) ⟨3⟩ blank 3).result ≠ .ok ()) :=
  ⟨⟨rfl, rfl⟩,
    readInto_eof_fails linux64 (scheduled readsEof writesOneByOne) (0, 0) ⟨3⟩ blank 3
      [⟨0, 3, gives 1⟩] ⟨1, 2, gives 0⟩ [] rfl rfl⟩

/-- C4: for `size > 0`, if each of the first `_SYS_MAX_READ_ATTEMPTS`
low-level reads returns `-1` with `errno` equal to `EINTR` or `EAGAIN`, then
`readInto` throws "Unknown read state", not "While reading from file", after
exactly `_SYS_MAX_READ_ATTEMPTS` low-level reads. -/
theorem readInto_transient_exhausts (C : Conf) (reads : Nat → ReadReply)
    (writes : Nat → WriteReply) (a b : Nat) (f : File) (buffer : Buffer) (size : Nat)
    (hsize : 0 < size)
    (htransient : ∀ i, i < C._SYS_MAX_READ_ATTEMPTS →
      (reads (a + i)).ret = -1 ∧
        ((reads (a + i)).errno = C.EINTR ∨ (reads (a + i)).errno = C.EAGAIN)) :
    (readInto C (scheduled reads writes) (a, b) f buffer size).result
      = .error ⟨"Unknown read state"⟩ ∧
    (readInto C (scheduled reads writes) (a, b) f buffer size).result
      ≠ .error ⟨"While reading from file"⟩ ∧
    (readInto C (scheduled reads writes) (a, b) f buffer size).calls.length
      = C._SYS_MAX_READ_ATTEMPTS ∧
    (readInto C (scheduled reads writes) (a, b) f buffer size).os
      = (a + C._SYS_MAX_READ_ATTEMPTS, b) := by
  have hne : size ≠ 0 := by omega
  have hne0 : (0 : Nat) ≠ size := by omega
  simp only [readInto, hne, if_false]
  obtain ⟨r1, r2, r3⟩ := readLoop_scheduled_transient C reads writes f.mHandle size b
    C._SYS_MAX_READ_ATTEMPTS 0 a buffer hne0
    (fun i hi => ⟨(htransient i hi).1, (isTransient_iff C _).mpr (htransient i hi).2⟩)
  refine ⟨r1, ?_, r2, r3⟩
  rw [r1]
  decide

theorem readInto_transient_exhausts_witness :
    (readInto linux64 (scheduled readsTransient writesOneByOne) (0, 0) ⟨3⟩ blank 8).result
      = .error ⟨"Unknown read state"⟩ ∧
    (readInto linux64 (scheduled readsTransient writesOneByOne) (0, 0) ⟨3⟩ blank 8).result
      ≠ .error ⟨"While reading from file"⟩ ∧
    (readInto linux64 (scheduled readsTransient writesOneByOne) (0, 0) ⟨3⟩ blank 8).calls.length
      = 100 ∧
    (readInto linux64 (scheduled readsTransient writesOneByOne) (0, 0) ⟨3⟩ blank 8).os
      = (0 + 100, 0) :=
  readInto_transient_exhausts linux64 readsTransient writesOneByOne 0 0 ⟨3⟩ blank 8 (by decide)
    (by decide)

/-- C5, refuted as stated: with 100 attempts and a request for 101 bytes,
reads that each deliver one byte, none of them failing, end in "Unknown read
state". -/
theorem readInto_exhausted_without_error :
    (readInto linux64 (scheduled readsOneByOne writesOneByOne) (0, 0) ⟨3⟩ blank 101).result
      = .error ⟨"Unknown read state"⟩ ∧
    ∀ c ∈ (readInto linux64 (scheduled readsOneByOne writesOneByOne) (0, 0) ⟨3⟩ blank 101).calls,
      c.reply.ret = 1 ∧ ¬ c.transient linux64 := by
  decide

/-- C5, amended: if `readInto` throws "Unknown read state" then it issued
exactly `_SYS_MAX_READ_ATTEMPTS` low-level reads, and each of them either
returned `-1` with `errno` equal to `EINTR` or `EAGAIN`, or returned a
result other than `-1` and `0` (it made progress short of `size`). -/
theorem readInto_exhausted_shape {σ : Type} (C : Conf) (os : Os σ) (s : σ) (f : File)
    (buffer : Buffer) (size : Nat)
    (hres : (readInto C os s f buffer size).result = .error ⟨"Unknown read state"⟩) :
    (readInto C os s f buffer size).calls.length = C._SYS_MAX_READ_ATTEMPTS ∧
    ∀ c ∈ (readInto C os s f buffer size).calls,
      (c.reply.ret = -1 ∧ (c.reply.errno = C.EINTR ∨ c.reply.errno = C.EAGAIN)) ∨
      (c.reply.ret ≠ -1 ∧ c.reply.ret ≠ 0) := by
  by_cases h0 : size = 0
  · simp [readInto, h0] at hres
  · simp only [readInto, h0, if_false] at hres ⊢
    obtain ⟨hlen, hall⟩ := readLoop_exhausted C os f.mHandle size _ 0 s buffer hres
    refine ⟨hlen, ?_⟩
    intro c hc
    rcases hall c hc with ht | hp
    · exact Or.inl ⟨ht.1, (isTransient_iff C _).mp ht.2⟩
    · exact Or.inr hp

theorem readInto_exhausted_shape_witness :
    (readInto linux64x3 (scheduled readsChunked writesOneByOne) (0, 0) ⟨3⟩ blank 9).result
        = .error ⟨"Unknown read state"⟩ ∧
    ((readInto linux64x3 (scheduled readsChunked writesOneByOne) (0, 0) ⟨3⟩ blank 9).calls.length
        = 3 ∧
      ∀ c ∈ (readInto linux64x3 (scheduled readsChunked writesOneByOne) (0, 0) ⟨3⟩ blank 9).calls,
        (c.reply.ret = -1 ∧ (c.reply.errno = 4 ∨ c.reply.errno = 11)) ∨
        (c.reply.ret ≠ -1 ∧ c.reply.ret ≠ 0)) :=
  ⟨by decide,
    readInto_exhausted_shape linux64x3 (scheduled readsChunked writesOneByOne) (0, 0) ⟨3⟩
      blank 9 (by decide)⟩

/-- C6: for `size > 0` (a `Size_T` value) and `k < _SYS_MAX_READ_ATTEMPTS`,
if the first `k` low-level reads return `-1` with `errno` equal to `EINTR`
or `EAGAIN` and read `k + 1` returns all `size` bytes, then `readInto`
returns success after exactly `k + 1` low-level reads, and the first `size`
bytes of the buffer are the bytes that last read delivered. -/
theorem readInto_retry_succeeds (C : Conf) (reads : Nat → ReadReply)
    (writes : Nat → WriteReply) (a b : Nat) (f : File) (buffer : Buffer) (size k : Nat)
    (hsize : 0 < size) (hfits : size < 2 ^ C.SIZE_BITS)
    (hk : k < C._SYS_MAX_READ_ATTEMPTS)
    (htransient : ∀ i, i < k →
      (reads (a + i)).ret = -1 ∧
        ((reads (a + i)).errno = C.EINTR ∨ (reads (a + i)).errno = C.EAGAIN))
    (hfull : (reads (a + k)).ret = (size : Int)) :
    (readInto C (scheduled reads writes) (a, b) f buffer size).result = .ok () ∧
    (readInto C (scheduled reads writes) (a, b) f buffer size).calls.length = k + 1 ∧
    (readInto C (scheduled reads writes) (a, b) f buffer size).os = (a + k + 1, b) ∧
    (readInto C (scheduled reads writes) (a, b) f buffer size).buffer.front size
      = (reads (a + k)).chunk := by
  have hne : size ≠ 0 := by omega
  simp only [readInto, hne, if_false]
  exact readLoop_scheduled_retry C reads writes f.mHandle size b hsize hfits k
    C._SYS_MAX_READ_ATTEMPTS a buffer hk
    (fun i hi => ⟨(htransient i hi).1, (isTransient_iff C _).mpr (htransient i hi).2⟩) hfull

theorem readInto_retry_succeeds_witness :
    (readInto linux64 (scheduled readsRetry writesOneByOne) (0, 0) ⟨3⟩ blank 5).result = .ok () ∧
    (readInto linux64 (scheduled readsRetry writesOneByOne) (0, 0) ⟨3⟩ blank 5).calls.length
      = 2 + 1 ∧
    (readInto linux64 (scheduled readsRetry writesOneByOne) (0, 0) ⟨3⟩ blank 5).os
      = (0 + 2 + 1, 0) ∧
    (readInto linux64 (scheduled readsRetry writesOneByOne) (0, 0) ⟨3⟩ blank 5).buffer.front 5
      = (readsRetry (0 + 2)).chunk :=
  readInto_retry_succeeds linux64 readsRetry writesOneByOne 0 0 ⟨3⟩ blank 5 2 (by decide)
    (by decide) (by decide) (by decide) (by decide)

/-- C7: whatever was read before and however many transient errors came
first, a low-level read that returns `-1` with `errno` neither `EINTR` nor
`EAGAIN` is the last read `readInto` issues, and `readInto` throws "While
reading from file". -/
theorem readInto_fatal_error_fails {σ : Type} (C : Conf) (os : Os σ) (s : σ) (f : File)
    (buffer : Buffer) (size : Nat) (pre : List ReadCall) (c : ReadCall) (post : List ReadCall)
    (hcalls : (readInto C os s f buffer size).calls = pre ++ c :: post)
    (herror : c.reply.ret = -1)
    (hintr : c.reply.errno ≠ C.EINTR) (hagain : c.reply.errno ≠ C.EAGAIN) :
    post = [] ∧
    (readInto C os s f buffer size).result = .error ⟨"While reading from file"⟩ := by
  have hfatal : c.fatal C := by
    refine ⟨herror, ?_⟩
    cases hT : isTransient C c.reply.errno with
    | false => rfl
    | true =>
      rcases (isTransient_iff C _).mp hT with h | h
      · exact absurd h hintr
      · exact absurd h hagain
  by_cases h0 : size = 0
  · simp [readInto, h0] at hcalls
  · simp only [readInto, h0, if_false] at hcalls ⊢
    exact (readLoop_stops C os f.mHandle size _ 0 s buffer pre c post hcalls).2 hfatal

theorem readInto_fatal_error_fails_witness :
    ((readInto linux64 (scheduled readsFatal writesOneByOne) (0, 0) ⟨3⟩ blank 3).calls
        = [⟨0, 3, gives 1⟩, ⟨1, 2, fails 11⟩] ++ ⟨1, 2, fails 5⟩ :: [] ∧
      (fails 5).ret = -1 ∧ (fails 5).errno ≠ linux64.EINTR ∧ (fails 5).errno ≠ linux64.EAGAIN) ∧
    (([] : List ReadCall) = [] ∧
      (readInto linux64 (scheduled readsFatal writesOneByOne) (0, 0) ⟨3⟩ blank 3).result
        = .error ⟨"While reading from file"⟩) :=
  ⟨⟨rfl, rfl, by decide, by decide⟩,
    readInto_fatal_error_fails linux64 (scheduled readsFatal writesOneByOne) (0, 0) ⟨3⟩ blank 3
      [⟨0, 3, gives 1⟩, ⟨1, 2, fails 11⟩] ⟨1, 2, fails 5⟩ [] rfl rfl (by decide) (by decide)⟩

/-- C8: `readInto(buffer, 0)` returns success, issues no low-level read, and
leaves the buffer and the platform state as they were, for every buffer,
handle and platform state. -/
theorem readInto_zero {σ : Type} (C : Conf) (os : Os σ) (s : σ) (f : File) (buffer : Buffer) :
    (readInto C os s f buffer 0).result = .ok () ∧
    (readInto C os s f buffer 0).calls = [] ∧
    (readInto C os s f buffer 0).buffer = buffer ∧
    (readInto C os s f buffer 0).os = s := by
  simp [readInto]

/-! ## Reliable write -/

/-- One iteration of the write loop, unfolded. -/
theorem writeLoop_succ {σ : Type} (C : Conf) (os : Os σ) (h : Int) (buffer : Buffer)
    (size fuel written : Nat) (s : σ) :
    writeLoop C os h buffer size (fuel + 1) written s =
      match os.osWrite s h buffer size with
      | (r, s1) =>
        if r.ret = -1 then ⟨some (.error ⟨"Writing to file"⟩), [⟨0, size, r⟩], s1⟩
        else if toSize C ((written : Int) + r.ret) < size then
          (writeLoop C os h buffer size fuel (toSize C ((written : Int) + r.ret)) s1).after
            ⟨0, size, r⟩
        else ⟨some (.ok ()), [⟨0, size, r⟩], s1⟩ := rfl

/-- On a scheduled platform, when the loop is still running after `k` writes
and the next write returns `-1`, every longer run ends there. -/
theorem writeLoop_scheduled_error (C : Conf) (reads : Nat → ReadReply)
    (writes : Nat → WriteReply) (h : Int) (buffer : Buffer) (size a : Nat) :
    ∀ (k fuel written b : Nat),
      (writeLoop C (scheduled reads writes) h buffer size k written (a, b)).result = none →
      (writes (b + k)).ret = -1 → k < fuel →
        (writeLoop C (scheduled reads writes) h buffer size fuel written (a, b)).result
            = some (.error ⟨"Writing to file"⟩) ∧
        (writeLoop C (scheduled reads writes) h buffer size fuel written (a, b)).calls.length
            = k + 1 ∧
        (writeLoop C (scheduled reads writes) h buffer size fuel written (a, b)).os
            = (a, b + k + 1) := by
  intro k
  induction k with
  | zero =>
    intro fuel written b _ herr hfuel
    obtain ⟨n, rfl⟩ : ∃ n, fuel = n + 1 := ⟨fuel - 1, by omega⟩
    simp only [Nat.add_zero] at herr
    rw [writeLoop_succ, scheduled_osWrite]
    simp [herr]
  | succ k ih =>
    intro fuel written b hrun herr hfuel
    obtain ⟨n, rfl⟩ : ∃ n, fuel = n + 1 := ⟨fuel - 1, by omega⟩
    rw [writeLoop_succ, scheduled_osWrite] at hrun ⊢
    simp only [] at hrun ⊢
    by_cases h1 : (writes b).ret = -1
    · simp [h1] at hrun
    by_cases h2 : toSize C ((written : Int) + (writes b).ret) < size
    · simp only [h1, h2, if_true, if_false, WriteRun.after] at hrun ⊢
      have herr1 : (writes (b + 1 + k)).ret = -1 := by
        rwa [show b + (k + 1) = b + 1 + k by omega] at herr
      obtain ⟨r1, r2, r3⟩ := ih n _ (b + 1) hrun herr1 (by omega)
      refine ⟨r1, by simp [r2], ?_⟩
      rw [r3]
      simp only [Prod.mk.injEq, true_and]
      omega
    · simp [h1, h2] at hrun

/-- C2, evaluated on the code: for the buffer 10, 20 and `size = 2`, with
each low-level write accepting one byte, `writeFrom` returns success after two
writes that both point at offset 0 and ask for 2 bytes; the bytes handed to
the platform are 10, 10 and not 10, 20. -/
theorem writeFrom_repeats_first_byte :
    (writeFrom linux64 (scheduled readsOneByOne writesOneByOne) (0, 0) ⟨3⟩ sampleBuffer 2 2)
      = ⟨some (.ok ()), [⟨0, 2, ⟨1, 0⟩⟩, ⟨0, 2, ⟨1, 0⟩⟩], (0, 2)⟩ ∧
    acceptedBytes sampleBuffer
      (writeFrom linux64 (scheduled readsOneByOne writesOneByOne) (0, 0) ⟨3⟩ sampleBuffer 2 2).calls
      = [10, 10] ∧
    sampleBuffer.front 2 = [10, 20] := by
  decide

/-- C9: when `writeFrom` is still in its loop after `k` low-level writes and
the next low-level write returns `-1`, whatever its `errno`, `writeFrom`
throws "Writing to file" at that write: it has issued `k + 1` writes and
issues no more. -/
theorem writeFrom_error_is_fatal (C : Conf) (reads : Nat → ReadReply)
    (writes : Nat → WriteReply) (a b : Nat) (f : File) (buffer : Buffer) (size k fuel : Nat)
    (hrunning : (writeFrom C (scheduled reads writes) (a, b) f buffer size k).result = none)
    (herror : (writes (b + k)).ret = -1) (hfuel : k < fuel) :
    (writeFrom C (scheduled reads writes) (a, b) f buffer size fuel).result
      = some (.error ⟨"Writing to file"⟩) ∧
    (writeFrom C (scheduled reads writes) (a, b) f buffer size fuel).calls.length = k + 1 ∧
    (writeFrom C (scheduled reads writes) (a, b) f buffer size fuel).os = (a, b + k + 1) :=
  writeLoop_scheduled_error C reads writes f.mHandle buffer size a k fuel 0 b hrunning herror hfuel

theorem writeFrom_error_is_fatal_witness :
    ((writeFrom linux64 (scheduled readsOneByOne writesInterrupted) (0, 0) ⟨3⟩ sampleBuffer 4 1).result
        = none ∧
      (writesInterrupted (0 + 1)) = ⟨-1, linux64.EINTR⟩) ∧
    ((writeFrom linux64 (scheduled readsOneByOne writesInterrupted) (0, 0) ⟨3⟩ sampleBuffer 4 9).result
        = some (.error ⟨"Writing to file"⟩) ∧
      (writeFrom linux64 (scheduled readsOneByOne writesInterrupted) (0, 0) ⟨3⟩ sampleBuffer 4
        9).calls.length = 1 + 1 ∧
      (writeFrom linux64 (scheduled readsOneByOne writesInterrupted) (0, 0) ⟨3⟩ sampleBuffer 4 9).os
        = (0, 0 + 1 + 1)) :=
  ⟨⟨by decide, by decide⟩,
    writeFrom_error_is_fatal linux64 readsOneByOne writesInterrupted 0 0 ⟨3⟩ sampleBuffer 4 1 9
      (by decide) (by decide) (by decide)⟩

/-! ## Opening a file -/

theorem lor_land_right (x t : Nat) : (x ||| t) &&& t = t := by
  apply Nat.eq_of_testBit_eq
  intro i
  simp only [Nat.testBit_land, Nat.testBit_lor]
  cases x.testBit i <;> cases t.testBit i <;> rfl

theorem land_same (x : Nat) : x &&& x = x := by
  apply Nat.eq_of_testBit_eq
  intro i
  simp only [Nat.testBit_land]
  cases x.testBit i <;> rfl

/-- The flag word and the handle of `create`, whatever `open` returns. -/
theorem create_flags {σ : Type} (C : Conf) (os : Os σ) (s : σ) (f : File) (str : String)
    (accessFlags creationFlags : Nat) :
    (create C os s f str accessFlags creationFlags).flags
      = (accessFlags ||| if accessFlags &&& C.WRITE_ONLY ≠ 0 then creationFlags ||| C.TRUNCATE
          else creationFlags) ∧
    (create C os s f str accessFlags creationFlags).file.mHandle
      = (os.osOpen s str (create C os s f str accessFlags creationFlags).flags
          C._SYS_DEFAULT_PERM).1 := by
  unfold create
  constructor <;> (simp only []; split_ifs <;> rfl)

/-- C10: when the access mode is `WRITE_ONLY` (a non-zero flag), the flag
word that `create` passes to the platform `open` is `WRITE_ONLY |
creationFlags | TRUNCATE`, which contains `TRUNCATE`, for every path and every
set of creation flags. -/
theorem create_write_only_truncates {σ : Type} (C : Conf) (os : Os σ) (s : σ) (f : File)
    (str : String) (creationFlags : Nat) (hflag : C.WRITE_ONLY ≠ 0) :
    (create C os s f str C.WRITE_ONLY creationFlags).flags
      = C.WRITE_ONLY ||| creationFlags ||| C.TRUNCATE ∧
    (create C os s f str C.WRITE_ONLY creationFlags).flags &&& C.TRUNCATE = C.TRUNCATE ∧
    (create C os s f str C.WRITE_ONLY creationFlags).file.mHandle
      = (os.osOpen s str (C.WRITE_ONLY ||| creationFlags ||| C.TRUNCATE) C._SYS_DEFAULT_PERM).1 := by
  obtain ⟨h1, h2⟩ := create_flags C os s f str C.WRITE_ONLY creationFlags
  have hfl : (create C os s f str C.WRITE_ONLY creationFlags).flags
      = C.WRITE_ONLY ||| creationFlags ||| C.TRUNCATE := by
    rw [h1, land_same, if_pos hflag, Nat.lor_assoc]
  refine ⟨hfl, ?_, ?_⟩
  · rw [hfl]
    exact lor_land_right _ _
  · rw [h2, hfl]

theorem create_write_only_truncates_witness :
    linux64.WRITE_ONLY ≠ 0 ∧
    ((create linux64 (scheduled readsOneByOne writesOneByOne) (0, 0) ⟨-1⟩ "out.dat"
        linux64.WRITE_ONLY 0o100).flags = linux64.WRITE_ONLY ||| 0o100 ||| linux64.TRUNCATE ∧
      (create linux64 (scheduled readsOneByOne writesOneByOne) (0, 0) ⟨-1⟩ "out.dat"
        linux64.WRITE_ONLY 0o100).flags &&& linux64.TRUNCATE = linux64.TRUNCATE ∧
      (create linux64 (scheduled readsOneByOne writesOneByOne) (0, 0) ⟨-1⟩ "out.dat"
        linux64.WRITE_ONLY 0o100).file.mHandle
        = ((scheduled readsOneByOne writesOneByOne).osOpen (0, 0) "out.dat"
            (linux64.WRITE_ONLY ||| 0o100 ||| linux64.TRUNCATE) linux64._SYS_DEFAULT_PERM).1) :=
  ⟨by decide,
    create_write_only_truncates linux64 (scheduled readsOneByOne writesOneByOne) (0, 0) ⟨-1⟩
      "out.dat" 0o100 (by decide)⟩

/-- C11: `create` throws "Error opening file: " followed by the path exactly
when the platform `open` returns `SYS_INVALID_HANDLE`, and returns normally
exactly when it does not; the handle of the file is always the value `open`
returned, so after a failed call it is the invalid sentinel and `isOpen` is
false. -/
theorem create_fails_iff_invalid_handle {σ : Type} (C : Conf) (os : Os σ) (s : σ) (f : File)
    (str : String) (accessFlags creationFlags : Nat) :
    ((create C os s f str accessFlags creationFlags).result
        = .error ⟨"Error opening file: " ++ str⟩ ↔
      (os.osOpen s str (create C os s f str accessFlags creationFlags).flags
        C._SYS_DEFAULT_PERM).1 = C.SYS_INVALID_HANDLE) ∧
    ((create C os s f str accessFlags creationFlags).result = .ok () ↔
      (os.osOpen s str (create C os s f str accessFlags creationFlags).flags
        C._SYS_DEFAULT_PERM).1 ≠ C.SYS_INVALID_HANDLE) ∧
    (create C os s f str accessFlags creationFlags).file.mHandle
      = (os.osOpen s str (create C os s f str accessFlags creationFlags).flags
          C._SYS_DEFAULT_PERM).1 ∧
    ((create C os s f str accessFlags creationFlags).result ≠ .ok () →
      (create C os s f str accessFlags creationFlags).file.mHandle = C.SYS_INVALID_HANDLE ∧
      (create C os s f str accessFlags creationFlags).file.isOpen C = false) := by
  unfold create
  simp only []
  split_ifs with h1 h2 <;> simp_all [File.isOpen]

/-- C12: whatever the platform `close` returns, `close` returns normally and
leaves the handle equal to `SYS_INVALID_HANDLE`; closing twice leaves the
same file state as closing once. -/
theorem close_resets_handle {σ : Type} (C : Conf) (os : Os σ) (s : σ) (f : File) :
    (close C os s f).1.mHandle = C.SYS_INVALID_HANDLE ∧
    (close C os s f).1.isOpen C = false ∧
    (close C os (close C os s f).2 (close C os s f).1).1 = (close C os s f).1 := by
  simp [close, File.isOpen]

/-- C13: `seekTo` throws "Seeking in file" exactly when the platform `lseek`
returns `-1`; for every other value, `0` included, it returns that value. -/
theorem seekTo_fails_iff_minus_one {σ : Type} (os : Os σ) (s : σ) (f : File)
    (offset whence : Int) :
    ((seekTo os s f offset whence).1 = .error ⟨"Seeking in file"⟩ ↔
      (os.osSeek s f.mHandle offset whence).1 = -1) ∧
    ((os.osSeek s f.mHandle offset whence).1 ≠ -1 →
      (seekTo os s f offset whence).1 = .ok (os.osSeek s f.mHandle offset whence).1) ∧
    ((os.osSeek s f.mHandle offset whence).1 = 0 → (seekTo os s f offset whence).1 = .ok 0) := by
  unfold seekTo
  simp only []
  split_ifs with h1 <;> simp_all

/-! ## The later claims on the two loops -/

/-- C15, evaluated on the code: for the buffer 10, 20, 30 and `size = 3`, with
each low-level write accepting two bytes, the second write is issued when 2
bytes have been accepted, yet it starts at offset 0 and requests 3 bytes, not
offset 2 and 1 byte. -/
theorem writeFrom_second_write_restarts :
    (writeFrom linux64 (scheduled readsOneByOne writesTwoByTwo) (0, 0) ⟨3⟩ sampleBuffer 3 2).result
      = some (.ok ()) ∧
    (writeFrom linux64 (scheduled readsOneByOne writesTwoByTwo) (0, 0) ⟨3⟩ sampleBuffer 3 2).calls
      = [⟨0, 3, ⟨2, 0⟩⟩, ⟨0, 3, ⟨2, 0⟩⟩] ∧
    (writeFrom linux64 (scheduled readsOneByOne writesTwoByTwo) (0, 0) ⟨3⟩ sampleBuffer 3 2).calls
      ≠ [⟨0, 3, ⟨2, 0⟩⟩, ⟨2, 1, ⟨2, 0⟩⟩] := by
  decide

/-- C17: `writeFrom(buffer, 0)` issues exactly one low-level write, which
requests 0 bytes; it returns normally when that write returns anything but
`-1` and throws "Writing to file" when it returns `-1`. -/
theorem writeFrom_zero {σ : Type} (C : Conf) (os : Os σ) (s : σ) (f : File) (buffer : Buffer)
    (fuel : Nat) :
    (writeFrom C os s f buffer 0 (fuel + 1)).calls
      = [⟨0, 0, (os.osWrite s f.mHandle buffer 0).1⟩] ∧
    (writeFrom C os s f buffer 0 (fuel + 1)).os = (os.osWrite s f.mHandle buffer 0).2 ∧
    (writeFrom C os s f buffer 0 (fuel + 1)).result
      = (if (os.osWrite s f.mHandle buffer 0).1.ret = -1
          then some (.error ⟨"Writing to file"⟩) else some (.ok ())) := by
  unfold writeFrom
  rw [writeLoop_succ]
  generalize os.osWrite s f.mHandle buffer 0 = rs
  obtain ⟨r, s1⟩ := rs
  simp only [Nat.not_lt_zero, if_false]
  split_ifs with h1 <;> simp

/-- The read loop issues at most one read for each iteration it has left. -/
theorem readLoop_length_le {σ : Type} (C : Conf) (os : Os σ) (h : Int) (size : Nat) :
    ∀ (left total : Nat) (s : σ) (buf : Buffer),
      (readLoop C os h size left total s buf).calls.length ≤ left := by
  intro left
  induction left with
  | zero =>
    intro total s buf
    simp [readLoop]
  | succ n ih =>
    intro total s buf
    rw [readLoop_succ]
    generalize os.osRead s h (toSize C ((size : Int) - total)) = rs
    obtain ⟨r, s1⟩ := rs
    simp only []
    split_ifs with h1 h2 h3 h4 h5
    · simp
    · simp only [ReadRun.after, List.length_cons]
      exact Nat.succ_le_succ (ih _ _ _)
    · simp
    · simp
    · simp
    · simp only [ReadRun.after, List.length_cons]
      exact Nat.succ_le_succ (ih _ _ _)

/-- C18: for every size, every platform and every way its reads reply,
`readInto` (a total function: it always returns or throws) issues at most
`_SYS_MAX_READ_ATTEMPTS` low-level reads. -/
theorem readInto_attempts_bounded {σ : Type} (C : Conf) (os : Os σ) (s : σ) (f : File)
    (buffer : Buffer) (size : Nat) :
    (readInto C os s f buffer size).calls.length ≤ C._SYS_MAX_READ_ATTEMPTS := by
  unfold readInto
  split_ifs with h0
  · simp
  · exact readLoop_length_le C os f.mHandle size _ 0 s buffer

theorem delivered_append (xs ys : List ReadCall) :
    delivered (xs ++ ys) = delivered xs + delivered ys := by
  induction xs with
  | nil => simp [delivered]
  | cons x xs ih =>
    show x.reply.ret.toNat + delivered (xs ++ ys)
      = (x.reply.ret.toNat + delivered xs) + delivered ys
    rw [ih]
    omega

/-- Where the loop points each read and how much it asks for, as long as the
reads before it were bounded by their requests. -/
theorem readLoop_requests {σ : Type} (C : Conf) (os : Os σ) (h : Int) (size : Nat)
    (hsize : size < 2 ^ C.SIZE_BITS) :
    ∀ (left total : Nat) (s : σ) (buf : Buffer), total < size →
      ∀ (pre : List ReadCall) (c : ReadCall) (post : List ReadCall),
        (readLoop C os h size left total s buf).calls = pre ++ c :: post →
        (∀ d ∈ pre, d.bounded) →
          c.offset = total + delivered pre ∧ c.count = size - (total + delivered pre) := by
  intro left
  induction left with
  | zero =>
    intro total s buf _ pre c post
    simp [readLoop]
  | succ n ih =>
    intro total s buf hlt pre c post
    have hcount : toSize C ((size : Int) - (total : Int)) = size - total := by
      have hs : ((size : Nat) : Int) < ((2 ^ C.SIZE_BITS : Nat) : Int) := Int.ofNat_lt.mpr hsize
      rw [toSize_of_lt C _ (by omega) (by omega)]
      omega
    rw [readLoop_succ, hcount]
    generalize os.osRead s h (size - total) = rs
    obtain ⟨r, s1⟩ := rs
    simp only []
    have hs : ((size : Nat) : Int) < ((2 ^ C.SIZE_BITS : Nat) : Int) := Int.ofNat_lt.mpr hsize
    split_ifs with h1 h2 h3 h4 h5
    · omega
    · intro hc hb
      simp only [ReadRun.after] at hc
      rcases cons_eq_append_cons hc with ⟨rfl, rfl, _⟩ | ⟨pre1, rfl, hl⟩
      · simp [delivered]
      · have hz : r.ret.toNat = 0 := by rw [h1]; rfl
        obtain ⟨i1, i2⟩ := ih total s1 _ hlt pre1 c post hl
          (fun d hd => hb d (List.mem_cons_of_mem _ hd))
        simp only [delivered, hz]
        constructor <;> omega
    · intro hc _
      rcases cons_eq_append_cons hc with ⟨rfl, rfl, _⟩ | ⟨pre1, rfl, hl⟩
      · simp [delivered]
      · simp at hl
    · intro hc _
      rcases cons_eq_append_cons hc with ⟨rfl, rfl, _⟩ | ⟨pre1, rfl, hl⟩
      · simp [delivered]
      · simp at hl
    · intro hc _
      rcases cons_eq_append_cons hc with ⟨rfl, rfl, _⟩ | ⟨pre1, rfl, hl⟩
      · simp [delivered]
      · simp at hl
    · intro hc hb
      simp only [ReadRun.after] at hc
      rcases cons_eq_append_cons hc with ⟨rfl, rfl, _⟩ | ⟨pre1, rfl, hl⟩
      · simp [delivered]
      · have hbd := hb _ (List.mem_cons_self _ _)
        simp only [ReadCall.bounded] at hbd
        rcases hbd with hbd | ⟨hb0, hb1⟩
        · exact absurd hbd h1
        have hk : toSize C ((total : Int) + r.ret) = total + r.ret.toNat := by
          rw [toSize_of_lt C _ (by omega) (by omega)]
          omega
        rw [hk] at h5 hl
        obtain ⟨i1, i2⟩ := ih _ s1 _ (by omega) pre1 c post hl
          (fun d hd => hb d (List.mem_cons_of_mem _ hd))
        simp only [delivered]
        constructor <;> omega

/-- C16: in `readInto(buffer, size)`, with `size` a `Size_T` value, every
low-level read whose predecessors returned `-1` or a byte count within their
request is issued at buffer offset `totalRead` and requests exactly `size -
totalRead` bytes, where `totalRead` is the sum of the positive results before
it; after a read that returned `-1` the next read repeats the same request. -/
theorem readInto_requests_remaining {σ : Type} (C : Conf) (os : Os σ) (s : σ) (f : File)
    (buffer : Buffer) (size : Nat) (hfits : size < 2 ^ C.SIZE_BITS)
    (pre : List ReadCall) (c : ReadCall) (post : List ReadCall)
    (hcalls : (readInto C os s f buffer size).calls = pre ++ c :: post)
    (hbounded : ∀ d ∈ pre, d.reply.ret = -1 ∨ (0 ≤ d.reply.ret ∧ d.reply.ret ≤ d.count)) :
    c.offset = delivered pre ∧ c.count = size - delivered pre ∧
    (c.reply.ret = -1 → ∀ d rest, post = d :: rest →
      d.offset = c.offset ∧ d.count = c.count) := by
  by_cases h0 : size = 0
  · simp [readInto, h0] at hcalls
  have hpos : 0 < size := Nat.pos_of_ne_zero h0
  simp only [readInto, h0, if_false] at hcalls
  obtain ⟨i1, i2⟩ := readLoop_requests C os f.mHandle size hfits _ 0 s buffer hpos
    pre c post hcalls hbounded
  refine ⟨by omega, by omega, ?_⟩
  intro hret d rest hpost
  have hcalls2 : (readLoop C os f.mHandle size C._SYS_MAX_READ_ATTEMPTS 0 s buffer).calls
      = (pre ++ [c]) ++ d :: rest := by
    rw [hcalls, hpost]
    simp
  have hb2 : ∀ e ∈ pre ++ [c], e.bounded := by
    intro e he
    rcases List.mem_append.mp he with he | he
    · exact hbounded e he
    · rw [List.mem_singleton.mp he]
      exact Or.inl hret
  obtain ⟨j1, j2⟩ := readLoop_requests C os f.mHandle size hfits _ 0 s buffer hpos
    (pre ++ [c]) d rest hcalls2 hb2
  have hz : c.reply.ret.toNat = 0 := by rw [hret]; rfl
  rw [delivered_append] at j1 j2
  simp only [delivered, hz] at j1 j2
  constructor <;> omega

theorem readInto_requests_remaining_witness :
    (3 < 2 ^ linux64.SIZE_BITS ∧
      (readInto linux64 (scheduled readsChunked writesOneByOne) (0, 0) ⟨3⟩ blank 3).calls
        = [⟨0, 3, gives 1⟩] ++ ⟨1, 2, fails 4⟩ :: [⟨1, 2, gives 2⟩]) ∧
    ((⟨1, 2, fails 4⟩ : ReadCall).offset = delivered [⟨0, 3, gives 1⟩] ∧
      (⟨1, 2, fails 4⟩ : ReadCall).count = 3 - delivered [⟨0, 3, gives 1⟩] ∧
      ((⟨1, 2, fails 4⟩ : ReadCall).reply.ret = -1 → ∀ d rest,
        [(⟨1, 2, gives 2⟩ : ReadCall)] = d :: rest →
          d.offset = (⟨1, 2, fails 4⟩ : ReadCall).offset ∧
          d.count = (⟨1, 2, fails 4⟩ : ReadCall).count)) :=
  ⟨⟨by decide, rfl⟩,
    readInto_requests_remaining linux64 (scheduled readsChunked writesOneByOne) (0, 0) ⟨3⟩ blank 3
      (by decide) [⟨0, 3, gives 1⟩] ⟨1, 2, fails 4⟩ [⟨1, 2, gives 2⟩] rfl (by decide)⟩

/-- With nothing to wrap around, a write loop that has `size - written` bytes
to go ends within that many writes. -/
theorem writeLoop_terminates {σ : Type} (C : Conf) (os : Os σ) (h : Int) (buffer : Buffer)
    (size : Nat) (hhalf : 2 * size ≤ 2 ^ C.SIZE_BITS) :
    ∀ (fuel written : Nat) (s : σ), written < size → size - written ≤ fuel →
      (∀ c ∈ (writeLoop C os h buffer size fuel written s).calls,
        c.reply.ret = -1 ∨
          (1 ≤ c.reply.ret ∧ 2 * c.reply.ret < ((2 ^ C.SIZE_BITS : Nat) : Int))) →
        (writeLoop C os h buffer size fuel written s).result ≠ none ∧
        (writeLoop C os h buffer size fuel written s).calls.length ≤ size - written := by
  intro fuel
  induction fuel with
  | zero =>
    intro written s hlt hfuel
    omega
  | succ n ih =>
    intro written s hlt hfuel
    rw [writeLoop_succ]
    generalize os.osWrite s h buffer size = rs
    obtain ⟨r, s1⟩ := rs
    simp only []
    split_ifs with h1 h2
    · intro _
      refine ⟨by simp, ?_⟩
      simp only [List.length_singleton]
      omega
    · intro hres
      simp only [WriteRun.after] at hres ⊢
      have hr := hres _ (List.mem_cons_self _ _)
      simp only [] at hr
      rcases hr with hr | ⟨hr1, hr2⟩
      · exact absurd hr h1
      have hh : ((2 * size : Nat) : Int) ≤ ((2 ^ C.SIZE_BITS : Nat) : Int) :=
        Int.ofNat_le.mpr hhalf
      have hk : toSize C ((written : Int) + r.ret) = written + r.ret.toNat := by
        rw [toSize_of_lt C _ (by omega) (by omega)]
        omega
      rw [hk] at h2 hres ⊢
      obtain ⟨i1, i2⟩ := ih _ s1 h2 (by omega) (fun c hc => hres c (List.mem_cons_of_mem _ hc))
      refine ⟨i1, ?_⟩
      simp only [List.length_cons]
      omega
    · intro _
      refine ⟨by simp, ?_⟩
      simp only [List.length_singleton]
      omega

/-- On 64-bit words, with every write accepting two bytes of a buffer of
`2 ^ 64 - 1` bytes, the accumulated count stays even and the loop never
ends: every iteration allowed issues one more write. -/
theorem writeLoop_even_runs_on (reads : Nat → ReadReply) (h : Int) (buffer : Buffer) (a : Nat) :
    ∀ (fuel written b : Nat), written % 2 = 0 →
      (writeLoop linux64 (scheduled reads writesTwoByTwo) h buffer (2 ^ 64 - 1) fuel written
        (a, b)).result = none ∧
      (writeLoop linux64 (scheduled reads writesTwoByTwo) h buffer (2 ^ 64 - 1) fuel written
        (a, b)).calls.length = fuel := by
  intro fuel
  induction fuel with
  | zero =>
    intro written b _
    exact ⟨rfl, rfl⟩
  | succ n ih =>
    intro written b heven
    rw [writeLoop_succ, scheduled_osWrite]
    have hto : toSize linux64 ((written : Int) + 2)
        = (((written : Int) + 2) % 18446744073709551616).toNat := by
      simp [toSize, linux64]
    have hret : (writesTwoByTwo b).ret = 2 := rfl
    have hne : (writesTwoByTwo b).ret ≠ -1 := by rw [hret]; decide
    have hlt : toSize linux64 ((written : Int) + 2) < 2 ^ 64 - 1 := by
      rw [hto]
      omega
    have hev : toSize linux64 ((written : Int) + 2) % 2 = 0 := by
      rw [hto]
      omega
    simp only [hne, hret, hlt, if_true, if_false, WriteRun.after]
    obtain ⟨i1, i2⟩ := ih (toSize linux64 ((written : Int) + 2)) (b + 1) hev
    exact ⟨i1, congrArg Nat.succ i2⟩

/-- C19, refuted as stated: on 64-bit words, for `size = 2 ^ 64 - 1` and
low-level writes that each return 2, `writeFrom` has issued `size` low-level
writes and is still in its loop. -/
theorem writeFrom_wraps_and_runs_on :
    (writeFrom linux64 (scheduled readsOneByOne writesTwoByTwo) (0, 0) ⟨3⟩ sampleBuffer
      (2 ^ 64 - 1) (2 ^ 64 - 1)).result = none ∧
    (writeFrom linux64 (scheduled readsOneByOne writesTwoByTwo) (0, 0) ⟨3⟩ sampleBuffer
      (2 ^ 64 - 1) (2 ^ 64 - 1)).calls.length = 2 ^ 64 - 1 :=
  writeLoop_even_runs_on readsOneByOne 3 sampleBuffer 0 (2 ^ 64 - 1) 0 0 rfl

/-- C19, amended: for every `size >= 1` with `2 * size <= 2 ^ SIZE_BITS` and
every platform whose low-level writes each return `-1` or an `SSize_T` value
that is at least 1, `writeFrom` ends within `size` iterations of its loop,
having issued at most `size` low-level writes. -/
theorem writeFrom_terminates {σ : Type} (C : Conf) (os : Os σ) (s : σ) (f : File)
    (buffer : Buffer) (size fuel : Nat) (hsize : 1 ≤ size)
    (hhalf : 2 * size ≤ 2 ^ C.SIZE_BITS) (hfuel : size ≤ fuel)
    (hresults : ∀ c ∈ (writeFrom C os s f buffer size fuel).calls,
      c.reply.ret = -1 ∨
        (1 ≤ c.reply.ret ∧ 2 * c.reply.ret < ((2 ^ C.SIZE_BITS : Nat) : Int))) :
    (writeFrom C os s f buffer size fuel).result ≠ none ∧
    (writeFrom C os s f buffer size fuel).calls.length ≤ size := by
  have := writeLoop_terminates C os f.mHandle buffer size hhalf fuel 0 s (by omega) (by omega)
    hresults
  simpa [writeFrom] using this

theorem writeFrom_terminates_witness :
    (writeFrom linux64 (scheduled readsOneByOne writesTwoByTwo) (0, 0) ⟨3⟩ sampleBuffer 5 7).result
      ≠ none ∧
    (writeFrom linux64 (scheduled readsOneByOne writesTwoByTwo) (0, 0) ⟨3⟩ sampleBuffer 5
      7).calls.length ≤ 5 :=
  writeFrom_terminates linux64 (scheduled readsOneByOne writesTwoByTwo) (0, 0) ⟨3⟩ sampleBuffer
    5 7 (by decide) (by decide) (by decide) (by decide)

/-! ## The model file -/

/-- The outcome and the platform state of `create`, in terms of what `open` returned. -/
theorem create_os {σ : Type} (C : Conf) (os : Os σ) (s : σ) (f : File) (str : String)
    (accessFlags creationFlags : Nat) :
    (create C os s f str accessFlags creationFlags).os
      = (os.osOpen s str (create C os s f str accessFlags creationFlags).flags
          C._SYS_DEFAULT_PERM).2 ∧
    (create C os s f str accessFlags creationFlags).result
      = (if (os.osOpen s str (create C os s f str accessFlags creationFlags).flags
            C._SYS_DEFAULT_PERM).1 = C.SYS_INVALID_HANDLE
          then .error ⟨"Error opening file: " ++ str⟩ else .ok ()) := by
  unfold create
  simp only []
  split_ifs with h1 <;> simp_all

theorem modelOs_osOpen (C : Conf) (st : ModelFs) (str : String) (flags mode : Nat) :
    (modelOs C).osOpen st str flags mode
      = (C.SYS_INVALID_HANDLE + 1,
          { st with content := if flags &&& C.TRUNCATE ≠ 0 then [] else st.content, cursor := 0 }) :=
  rfl

theorem modelOs_osRead (C : Conf) (st : ModelFs) (h : Int) (count : Nat) :
    (modelOs C).osRead st h count
      = (⟨(moved (st.readPick st.reads) (min (st.content.length - st.cursor) count) : Nat), 0,
            fun i => st.content.getD (st.cursor + i) 0⟩,
          { st with
            cursor := st.cursor + moved (st.readPick st.reads)
              (min (st.content.length - st.cursor) count)
            reads := st.reads + 1 }) :=
  rfl

theorem modelOs_osWrite (C : Conf) (st : ModelFs) (h : Int) (buf : Buffer) (count : Nat) :
    (modelOs C).osWrite st h buf count
      = (⟨(moved (st.writePick st.writes) count : Nat), 0⟩,
          { st with
            content := putAt st.content st.cursor
              ((List.range (moved (st.writePick st.writes) count)).map buf)
            cursor := st.cursor + moved (st.writePick st.writes) count
            writes := st.writes + 1 }) :=
  rfl

/-- C20: with `WRITE_ONLY = 1`, an access mode of 0 (`READ_ONLY`) or 2
(`READ_WRITE`) adds nothing to the creation flags: the flag word passed to
the platform `open` is exactly `accessFlags | creationFlags`, and on the
model file an open whose flag word has no `TRUNCATE` bit keeps the
contents. -/
theorem create_other_modes_keep_flags {σ : Type} (C : Conf) (os : Os σ) (s : σ) (f : File)
    (str : String) (accessFlags creationFlags : Nat) (st : ModelFs)
    (hwrite : C.WRITE_ONLY = 1) (hmode : accessFlags = 0 ∨ accessFlags = 2) :
    (create C os s f str accessFlags creationFlags).flags = accessFlags ||| creationFlags ∧
    (create C os s f str accessFlags creationFlags).file.mHandle
      = (os.osOpen s str (accessFlags ||| creationFlags) C._SYS_DEFAULT_PERM).1 ∧
    ((accessFlags ||| creationFlags) &&& C.TRUNCATE = 0 →
      (create C (modelOs C) st f str accessFlags creationFlags).os.content = st.content) := by
  have hand : accessFlags &&& C.WRITE_ONLY = 0 := by
    rw [hwrite]
    rcases hmode with rfl | rfl <;> decide
  have hfl : ∀ {τ : Type} (os1 : Os τ) (s1 : τ),
      (create C os1 s1 f str accessFlags creationFlags).flags = accessFlags ||| creationFlags := by
    intro τ os1 s1
    rw [(create_flags C os1 s1 f str accessFlags creationFlags).1, hand]
    simp
  refine ⟨hfl os s, ?_, ?_⟩
  · rw [(create_flags C os s f str accessFlags creationFlags).2, hfl os s]
  · intro hkeep
    rw [(create_os C (modelOs C) st f str accessFlags creationFlags).1, hfl (modelOs C) st,
      modelOs_osOpen]
    simp [hkeep]

theorem create_other_modes_keep_flags_witness :
    (linux64.WRITE_ONLY = 1 ∧ ((2 : Nat) = 0 ∨ (2 : Nat) = 2)) ∧
    ((create linux64 (scheduled readsOneByOne writesOneByOne) (0, 0) ⟨-1⟩ "data.bin" 2 0o100).flags
        = 2 ||| 0o100 ∧
      (create linux64 (scheduled readsOneByOne writesOneByOne) (0, 0) ⟨-1⟩ "data.bin" 2
          0o100).file.mHandle
        = ((scheduled readsOneByOne writesOneByOne).osOpen (0, 0) "data.bin" (2 ||| 0o100)
            linux64._SYS_DEFAULT_PERM).1 ∧
      ((2 ||| 0o100) &&& linux64.TRUNCATE = 0 →
        (create linux64 (modelOs linux64) (sampleFs (fun _ => 1) (fun _ => 1)) ⟨-1⟩ "data.bin" 2
          0o100).os.content = (sampleFs (fun _ => 1) (fun _ => 1)).content)) :=
  ⟨⟨by decide, by decide⟩,
    create_other_modes_keep_flags linux64 (scheduled readsOneByOne writesOneByOne) (0, 0) ⟨-1⟩
      "data.bin" 2 0o100 (sampleFs (fun _ => 1) (fun _ => 1)) (by decide) (by decide)⟩

theorem moved_bounds (pick limit : Nat) (hlimit : 0 < limit) :
    1 ≤ moved pick limit ∧ moved pick limit ≤ limit := by
  unfold moved
  omega

theorem moved_zero (pick : Nat) : moved pick 0 = 0 := by
  unfold moved
  omega

theorem moved_full (pick limit : Nat) (hpick : limit ≤ pick) : moved pick limit = limit := by
  unfold moved
  omega

/-- Reading a list back position by position gives the list. -/
theorem map_getD_range (b : List Byte) : (List.range b.length).map (fun i => b.getD i 0) = b := by
  apply List.ext_getElem
  · simp
  · intro i h1 h2
    simp [List.getD_eq_getElem?_getD, h2]

theorem bufferOf_front (b : List Byte) : (bufferOf b).front b.length = b :=
  map_getD_range b

/-- A buffer that agrees with `b` on its first `b.length` positions has `b` as its front. -/
theorem front_eq_of_agree (buf : Buffer) (b : List Byte)
    (h : ∀ i, i < b.length → buf i = b.getD i 0) : buf.front b.length = b := by
  rw [← map_getD_range b]
  unfold Buffer.front
  rw [List.length_map, List.length_range]
  apply List.map_congr_left
  intro i hi
  exact h i (by simpa using List.mem_range.mp hi)

/-- On the model file holding `b` with the cursor at `total`, a read loop
with at least `b.length - total` iterations to go reads the rest of `b` into
place, however the platform cuts it into chunks. -/
theorem readLoop_model (C : Conf) (h : Int) (b : List Byte)
    (hfits : b.length < 2 ^ C.SIZE_BITS) :
    ∀ (left total : Nat) (st : ModelFs) (buf : Buffer),
      st.content = b → st.cursor = total → total < b.length → b.length - total ≤ left →
        (readLoop C (modelOs C) h b.length left total st buf).result = .ok () ∧
        (readLoop C (modelOs C) h b.length left total st buf).os.content = b ∧
        (readLoop C (modelOs C) h b.length left total st buf).os.cursor = b.length ∧
        (∀ i, i < total → (readLoop C (modelOs C) h b.length left total st buf).buffer i = buf i) ∧
        (∀ i, total ≤ i → i < b.length →
          (readLoop C (modelOs C) h b.length left total st buf).buffer i = b.getD i 0) := by
  intro left
  induction left with
  | zero =>
    intro total st buf _ _ hlt hleft
    omega
  | succ n ih =>
    intro total st buf hcontent hcursor hlt hleft
    obtain ⟨content, cursor, readPick, writePick, reads, writes⟩ := st
    simp only [] at hcontent hcursor
    subst hcontent hcursor
    have hs : ((content.length : Nat) : Int) < ((2 ^ C.SIZE_BITS : Nat) : Int) :=
      Int.ofNat_lt.mpr hfits
    have hcount : toSize C ((content.length : Int) - (cursor : Int)) = content.length - cursor := by
      rw [toSize_of_lt C _ (by omega) (by omega)]
      omega
    rw [readLoop_succ, hcount, modelOs_osRead]
    simp only [Nat.min_self]
    obtain ⟨hk1, hk2⟩ := moved_bounds (readPick reads) (content.length - cursor) (by omega)
    generalize moved (readPick reads) (content.length - cursor) = k at hk1 hk2 ⊢
    have hne1 : ((k : Nat) : Int) ≠ -1 := by omega
    have hne0 : ((k : Nat) : Int) ≠ 0 := by omega
    have htot : toSize C ((cursor : Int) + (k : Int)) = cursor + k := by
      rw [toSize_of_lt C _ (by omega) (by omega)]
      omega
    simp only [hne1, hne0, htot, if_false]
    have hstore_lo : ∀ i, i < cursor →
        storeAt buf cursor ⟨(k : Int), 0, fun i => content.getD (cursor + i) 0⟩ i = buf i :=
      fun i hi => storeAt_below buf cursor _ i hi
    have hstore_in : ∀ i, cursor ≤ i → i < cursor + k →
        storeAt buf cursor ⟨(k : Int), 0, fun i => content.getD (cursor + i) 0⟩ i = content.getD i 0 := by
      intro i hi1 hi2
      have hin := storeAt_inside buf cursor ⟨(k : Int), 0, fun i => content.getD (cursor + i) 0⟩
        (i - cursor) (by simp; omega)
      simp only [] at hin
      rw [show cursor + (i - cursor) = i by omega] at hin
      exact hin
    split_ifs with h5
    · refine ⟨rfl, rfl, h5, hstore_lo, ?_⟩
      intro i hi1 hi2
      exact hstore_in i hi1 (by omega)
    · simp only [ReadRun.after]
      obtain ⟨r1, r2, r3, r4, r5⟩ := ih (cursor + k)
        ⟨content, cursor + k, readPick, writePick, reads + 1, writes⟩
        (storeAt buf cursor ⟨(k : Int), 0, fun i => content.getD (cursor + i) 0⟩)
        rfl rfl (by omega) (by omega)
      refine ⟨r1, r2, r3, ?_, ?_⟩
      · intro i hi
        rw [r4 i (by omega)]
        exact hstore_lo i hi
      · intro i hi1 hi2
        by_cases hik : i < cursor + k
        · rw [r4 i hik]
          exact hstore_in i hi1 hik
        · exact r5 i (by omega) hi2

/-- Creating the model file write-only empties it and rewinds the cursor. -/
theorem create_model_write_only (C : Conf) (st : ModelFs) (f : File) (str : String)
    (creationFlags : Nat) (hwrite : C.WRITE_ONLY ≠ 0) (htrunc : C.TRUNCATE ≠ 0) :
    (create C (modelOs C) st f str C.WRITE_ONLY creationFlags).result = .ok () ∧
    (create C (modelOs C) st f str C.WRITE_ONLY creationFlags).os.content = [] ∧
    (create C (modelOs C) st f str C.WRITE_ONLY creationFlags).os.cursor = 0 ∧
    (create C (modelOs C) st f str C.WRITE_ONLY creationFlags).os.writePick = st.writePick ∧
    (create C (modelOs C) st f str C.WRITE_ONLY creationFlags).os.readPick = st.readPick := by
  have hcontains : (create C (modelOs C) st f str C.WRITE_ONLY creationFlags).flags &&& C.TRUNCATE
      = C.TRUNCATE := by
    rw [(create_flags C (modelOs C) st f str C.WRITE_ONLY creationFlags).1, land_same,
      if_pos hwrite, ← Nat.lor_assoc]
    exact lor_land_right _ _
  obtain ⟨hos, hres⟩ := create_os C (modelOs C) st f str C.WRITE_ONLY creationFlags
  rw [hos, hres, modelOs_osOpen, hcontains]
  simp [htrunc]

/-- Opening the model file with access mode 0 and no creation flags keeps
its bytes and rewinds the cursor. -/
theorem create_model_read_only (C : Conf) (st : ModelFs) (f : File) (str : String) :
    (create C (modelOs C) st f str 0 0).result = .ok () ∧
    (create C (modelOs C) st f str 0 0).os.content = st.content ∧
    (create C (modelOs C) st f str 0 0).os.cursor = 0 ∧
    (create C (modelOs C) st f str 0 0).os.readPick = st.readPick := by
  obtain ⟨hos, hres⟩ := create_os C (modelOs C) st f str 0 0
  have hfl : (create C (modelOs C) st f str 0 0).flags = 0 := by
    rw [(create_flags C (modelOs C) st f str 0 0).1]
    simp
  rw [hos, hres, modelOs_osOpen, hfl]
  simp

/-- On the empty model file, when the platform accepts the whole request,
`writeFrom` stores `b` with one write. -/
theorem writeFrom_model_full (C : Conf) (st : ModelFs) (f : File) (b : List Byte) (fuel : Nat)
    (hfits : b.length < 2 ^ C.SIZE_BITS) (hcontent : st.content = []) (hcursor : st.cursor = 0)
    (hfull : ∀ i, b.length ≤ st.writePick i) :
    (writeFrom C (modelOs C) st f (bufferOf b) b.length (fuel + 1)).result = some (.ok ()) ∧
    (writeFrom C (modelOs C) st f (bufferOf b) b.length (fuel + 1)).os.content = b ∧
    (writeFrom C (modelOs C) st f (bufferOf b) b.length (fuel + 1)).os.readPick = st.readPick := by
  unfold writeFrom
  rw [writeLoop_succ, modelOs_osWrite, moved_full _ _ (hfull st.writes)]
  have hs : ((b.length : Nat) : Int) < ((2 ^ C.SIZE_BITS : Nat) : Int) := Int.ofNat_lt.mpr hfits
  have hne1 : ((b.length : Nat) : Int) ≠ -1 := by omega
  have htot : toSize C (((0 : Nat) : Int) + ((b.length : Nat) : Int)) = b.length := by
    rw [toSize_of_lt C _ (by omega) (by omega)]
    omega
  simp only [hne1, htot, Nat.lt_irrefl, if_false, hcontent, hcursor]
  refine ⟨trivial, ?_, trivial⟩
  have hb := bufferOf_front b
  unfold Buffer.front at hb
  simp [putAt, hb]

/-- On the model file holding `b` with the cursor at its start, `readInto`
of `b.length` bytes succeeds and leaves `b` in the buffer, when the attempts
allowed are at least `b.length`. -/
theorem readInto_model_all (C : Conf) (st : ModelFs) (f : File) (buf : Buffer) (b : List Byte)
    (hfits : b.length < 2 ^ C.SIZE_BITS) (hmax : b.length ≤ C._SYS_MAX_READ_ATTEMPTS)
    (hcontent : st.content = b) (hcursor : st.cursor = 0) :
    (readInto C (modelOs C) st f buf b.length).result = .ok () ∧
    (readInto C (modelOs C) st f buf b.length).buffer.front b.length = b ∧
    (readInto C (modelOs C) st f buf b.length).os.content = b ∧
    (readInto C (modelOs C) st f buf b.length).os.cursor = b.length := by
  by_cases h0 : b.length = 0
  · have hnil : b = [] := List.length_eq_zero.mp h0
    simp [readInto, h0, hcontent, hcursor]
    simp [hnil, Buffer.front]
  · simp only [readInto, h0, if_false]
    obtain ⟨r1, r2, r3, _, r5⟩ := readLoop_model C f.mHandle b hfits
      C._SYS_MAX_READ_ATTEMPTS 0 st buf hcontent hcursor (by omega) (by omega)
    exact ⟨r1, front_eq_of_agree _ b (fun i hi => r5 i (Nat.zero_le i) hi), r2, r3⟩

/-- With the cursor at the end of the model file, `readInto` of one byte
meets the end of the file. -/
theorem readInto_model_eof (C : Conf) (st : ModelFs) (f : File) (buf : Buffer)
    (hpos : 0 < C._SYS_MAX_READ_ATTEMPTS) (hcursor : st.cursor = st.content.length) :
    (readInto C (modelOs C) st f buf 1).result = .error ⟨"Unexpected end of file"⟩ := by
  obtain ⟨m, hm⟩ : ∃ m, C._SYS_MAX_READ_ATTEMPTS = m + 1 :=
    ⟨C._SYS_MAX_READ_ATTEMPTS - 1, by omega⟩
  simp only [readInto, Nat.one_ne_zero, if_false, hm]
  rw [readLoop_succ, modelOs_osRead]
  simp [hcursor, moved_zero]

set_option maxRecDepth 100000 in
/-- C14, refuted as stated: with 100 read attempts, 101 bytes written in one
piece and read back one byte per low-level read, the `readInto` of the 101
bytes throws "Unknown read state" although writing and reopening
succeeded. -/
theorem roundTrip_exhausts_attempts :
    (roundTrip linux64 (sampleFs (fun _ => 1) (fun _ => 101)) (List.replicate 101 5) 0o100 1)
      = ⟨.ok (), some (.ok ()), .ok (), .error ⟨"Unknown read state"⟩,
          List.replicate 100 5 ++ [0], .ok ()⟩ := by
  decide

/-- C14, amended: on the model file, when every low-level write accepts the
whole count requested and the low-level reads return any number from 1 up to
the bytes available, for every byte string `b` of a length that is at most
`_SYS_MAX_READ_ATTEMPTS` (a positive number): creating the file write-only,
`writeFrom(b, n)`, `close`, reopening read-only and `readInto(buf, n)` all
succeed with `buf = b`, and a following `readInto` of one byte throws
"Unexpected end of file". -/
theorem roundTrip_returns_bytes (C : Conf) (st : ModelFs) (b : List Byte)
    (creationFlags fuel : Nat) (hwrite : C.WRITE_ONLY ≠ 0) (htrunc : C.TRUNCATE ≠ 0)
    (hfits : b.length < 2 ^ C.SIZE_BITS) (hpos : 0 < C._SYS_MAX_READ_ATTEMPTS)
    (hmax : b.length ≤ C._SYS_MAX_READ_ATTEMPTS) (hfull : ∀ i, b.length ≤ st.writePick i) :
    roundTrip C st b creationFlags (fuel + 1)
      = ⟨.ok (), some (.ok ()), .ok (), .ok (), b, .error ⟨"Unexpected end of file"⟩⟩ := by
  obtain ⟨c1r, c1content, c1cursor, c1pick, _⟩ :=
    create_model_write_only C st ⟨C.SYS_INVALID_HANDLE⟩ "data.bin" creationFlags hwrite htrunc
  obtain ⟨wr, wcontent, _⟩ := writeFrom_model_full C
    (create C (modelOs C) st ⟨C.SYS_INVALID_HANDLE⟩ "data.bin" C.WRITE_ONLY creationFlags).os
    (create C (modelOs C) st ⟨C.SYS_INVALID_HANDLE⟩ "data.bin" C.WRITE_ONLY creationFlags).file
    b fuel hfits c1content c1cursor (fun i => by rw [c1pick]; exact hfull i)
  unfold roundTrip
  simp only []
  generalize (create C (modelOs C) st ⟨C.SYS_INVALID_HANDLE⟩ "data.bin" C.WRITE_ONLY
    creationFlags) = c1 at c1r wr wcontent ⊢
  generalize (writeFrom C (modelOs C) c1.os c1.file (bufferOf b) b.length (fuel + 1)) = w
    at wr wcontent ⊢
  have hclose : (close C (modelOs C) w.os c1.file).2 = w.os := rfl
  rw [hclose]
  obtain ⟨c2r, c2content, c2cursor, _⟩ :=
    create_model_read_only C w.os (close C (modelOs C) w.os c1.file).1 "data.bin"
  generalize (create C (modelOs C) w.os (close C (modelOs C) w.os c1.file).1 "data.bin" 0 0) = c2
    at c2r c2content c2cursor ⊢
  obtain ⟨rr, rfront, rcontent, rcursor⟩ := readInto_model_all C c2.os c2.file blank b hfits hmax
    (by rw [c2content, wcontent]) c2cursor
  generalize (readInto C (modelOs C) c2.os c2.file blank b.length) = r
    at rr rfront rcontent rcursor ⊢
  have r1r := readInto_model_eof C r.os c2.file r.buffer hpos (by rw [rcursor, rcontent])
  rw [c1r, wr, c2r, rr, rfront, r1r]

theorem roundTrip_returns_bytes_witness :
    roundTrip linux64 (sampleFs (fun _ => 2) (fun _ => 5)) [10, 20, 30, 40, 50] 0o100 (0 + 1)
      = ⟨.ok (), some (.ok ()), .ok (), .ok (), [10, 20, 30, 40, 50],
          .error ⟨"Unexpected end of file"⟩⟩ :=
  roundTrip_returns_bytes linux64 (sampleFs (fun _ => 2) (fun _ => 5)) [10, 20, 30, 40, 50] 0o100 0
    (by decide) (by decide) (by decide) (by decide) (by decide) (fun _ => Nat.le_refl 5)

end sys
